import Mathlib

/-!
Verification of the chunked binary container codec of this repository.

The central object is the diagnostic text deserializer
(`rbx_binary/src/text_deserializer.rs`): a decode path that turns a byte
stream into a fully introspectable `DecodedModel`.  Byte streams are
embedded as `List Nat` (one `Nat` per byte); readers are explicit
state-passing functions returning `Option (α × List Nat)`, where `none`
models a fatal decode error (the Rust code panics via `unwrap`/`expect`).
32-bit floats never participate in arithmetic in the decoder, so a float
is embedded as its 32-bit pattern (a `Nat`).

The byte-reading core (`RbxReadExt`, `Chunk::decode`, `FileHeader::decode`,
the `Type` tag enumeration) lives in repository files that are not part of
the sources under verification; those definitions are modelled from the
specification and carry a `Modelled from the spec:` doc comment.
-/

namespace RbxDom

/-- Read exactly `n` bytes from the stream, failing when fewer are
available. -/
def readExact (n : Nat) (s : List Nat) : Option (List Nat × List Nat) :=
  if n ≤ s.length then some (s.take n, s.drop n) else none

/-- Read a single byte. -/
def readU8 (s : List Nat) : Option (Nat × List Nat) :=
  match s with
  | [] => none
  | b :: r => some (b, r)

/-- Combine a little-endian byte list into an unsigned integer. -/
def fromLEBytes (l : List Nat) : Nat :=
  l.foldr (fun b acc => b + 256 * acc) 0

/-- The 4-byte little-endian encoding of `n % 2^32`. -/
def u32le (n : Nat) : List Nat :=
  [n % 256, n / 256 % 256, n / 65536 % 256, n / 16777216 % 256]

/-- The 2-byte little-endian encoding of `n % 2^16`. -/
def u16le (n : Nat) : List Nat :=
  [n % 256, n / 256 % 256]

/-- Read a little-endian `u32`. -/
def readU32le (s : List Nat) : Option (Nat × List Nat) :=
  (readExact 4 s).map fun p => (fromLEBytes p.1, p.2)

/-- Read a little-endian `u16`. -/
def readU16le (s : List Nat) : Option (Nat × List Nat) :=
  (readExact 2 s).map fun p => (fromLEBytes p.1, p.2)

/-- Read a little-endian `f64`, kept as its 64-bit pattern. -/
def readF64le (s : List Nat) : Option (Nat × List Nat) :=
  (readExact 8 s).map fun p => (fromLEBytes p.1, p.2)

/-- `true` when `b` is a UTF-8 continuation byte (`0x80`–`0xBF`). -/
def utf8Cont (b : Nat) : Bool :=
  0x80 ≤ b && b ≤ 0xBF

/-- `true` when `b` leads a 2-byte UTF-8 sequence (`0xC2`–`0xDF`). -/
def lead2 (b : Nat) : Bool :=
  0xC2 ≤ b && b ≤ 0xDF

/-- `true` when `b` leads a 3-byte UTF-8 sequence (`0xE0`–`0xEF`). -/
def lead3 (b : Nat) : Bool :=
  0xE0 ≤ b && b ≤ 0xEF

/-- `true` when `b` leads a 4-byte UTF-8 sequence (`0xF0`–`0xF4`). -/
def lead4 (b : Nat) : Bool :=
  0xF0 ≤ b && b ≤ 0xF4

/-- Valid range of the first continuation byte after a 3-byte lead `b`
(restricted for `0xE0` and for the surrogate area after `0xED`). -/
def cont3first (b c : Nat) : Bool :=
  if b = 0xE0 then 0xA0 ≤ c && c ≤ 0xBF
  else if b = 0xED then 0x80 ≤ c && c ≤ 0x9F
  else utf8Cont c

/-- Valid range of the first continuation byte after a 4-byte lead `b`
(restricted for `0xF0` and for the out-of-range area after `0xF4`). -/
def cont4first (b c : Nat) : Bool :=
  if b = 0xF0 then 0x90 ≤ c && c ≤ 0xBF
  else if b = 0xF4 then 0x80 ≤ c && c ≤ 0x8F
  else utf8Cont c

/-- Validity of a byte list as UTF-8, following the standard well-formedness
conditions (surrogate and out-of-range sequences rejected). -/
def isValidUtf8 : List Nat → Bool
  | [] => true
  | [a] => a < 0x80
  | [a, b] =>
    if a < 0x80 then isValidUtf8 [b]
    else if lead2 a then utf8Cont b
    else false
  | [a, b, c] =>
    if a < 0x80 then isValidUtf8 [b, c]
    else if lead2 a then utf8Cont b && isValidUtf8 [c]
    else if lead3 a then cont3first a b && utf8Cont c
    else false
  | a :: b :: c :: d :: rest =>
    if a < 0x80 then isValidUtf8 (b :: c :: d :: rest)
    else if lead2 a then utf8Cont b && isValidUtf8 (c :: d :: rest)
    else if lead3 a then cont3first a b && utf8Cont c && isValidUtf8 (d :: rest)
    else if lead4 a then
      cont4first a b && utf8Cont c && utf8Cont d && isValidUtf8 rest
    else false

/-- The UTF-8 bytes of U+FFFD REPLACEMENT CHARACTER. -/
def replacementBytes : List Nat := [0xEF, 0xBF, 0xBD]

/-- Lossy UTF-8 decoding, as `String::from_utf8_lossy`: each maximal invalid
subpart is replaced by U+FFFD (substitution of maximal subparts; a valid
truncated sequence at end of input is likewise one replacement), valid
sequences are copied through unchanged.  The result is returned as the byte
list of the resulting string. -/
def utf8Lossy : List Nat → List Nat
  | [] => []
  | [a] => if a < 0x80 then [a] else replacementBytes
  | [a, b] =>
    if a < 0x80 then a :: utf8Lossy [b]
    else if lead2 a then
      if utf8Cont b then [a, b] else replacementBytes ++ utf8Lossy [b]
    else if lead3 a then
      if cont3first a b then replacementBytes
      else replacementBytes ++ utf8Lossy [b]
    else if lead4 a then
      if cont4first a b then replacementBytes
      else replacementBytes ++ utf8Lossy [b]
    else replacementBytes ++ utf8Lossy [b]
  | [a, b, c] =>
    if a < 0x80 then a :: utf8Lossy [b, c]
    else if lead2 a then
      if utf8Cont b then a :: b :: utf8Lossy [c]
      else replacementBytes ++ utf8Lossy [b, c]
    else if lead3 a then
      if cont3first a b then
        if utf8Cont c then [a, b, c] else replacementBytes ++ utf8Lossy [c]
      else replacementBytes ++ utf8Lossy [b, c]
    else if lead4 a then
      if cont4first a b then
        if utf8Cont c then replacementBytes
        else replacementBytes ++ utf8Lossy [c]
      else replacementBytes ++ utf8Lossy [b, c]
    else replacementBytes ++ utf8Lossy [b, c]
  | a :: b :: c :: d :: rest =>
    if a < 0x80 then a :: utf8Lossy (b :: c :: d :: rest)
    else if lead2 a then
      if utf8Cont b then a :: b :: utf8Lossy (c :: d :: rest)
      else replacementBytes ++ utf8Lossy (b :: c :: d :: rest)
    else if lead3 a then
      if cont3first a b then
        if utf8Cont c then a :: b :: c :: utf8Lossy (d :: rest)
        else replacementBytes ++ utf8Lossy (c :: d :: rest)
      else replacementBytes ++ utf8Lossy (b :: c :: d :: rest)
    else if lead4 a then
      if cont4first a b then
        if utf8Cont c then
          if utf8Cont d then a :: b :: c :: d :: utf8Lossy rest
          else replacementBytes ++ utf8Lossy (d :: rest)
        else replacementBytes ++ utf8Lossy (c :: d :: rest)
      else replacementBytes ++ utf8Lossy (b :: c :: d :: rest)
    else replacementBytes ++ utf8Lossy (b :: c :: d :: rest)

/-- Modelled from the spec: `read_string` of the byte-reading core reads a
`u32` length prefix followed by that many bytes, which must be valid UTF-8
(names and metadata entries are strings).  The string value is kept as its
byte list. -/
def readString (s : List Nat) : Option (List Nat × List Nat) :=
  (readU32le s).bind fun p =>
    (readExact p.1 p.2).bind fun q =>
      if isValidUtf8 q.1 then some (q.1, q.2) else none

/-- Modelled from the spec: `read_binary_string` reads a `u32` length prefix
followed by that many raw bytes, with no assumption of UTF-8 validity. -/
def readBinaryString (s : List Nat) : Option (List Nat × List Nat) :=
  (readU32le s).bind fun p => readExact p.1 p.2

/-- Modelled from the spec: `read_bool` reads one byte; nonzero is `true`. -/
def readBool (s : List Nat) : Option (Bool × List Nat) :=
  (readU8 s).map fun p => (p.1 != 0, p.2)

/-- Re-assemble `n` elements of width `w` bytes from byte-plane transposed
storage: plane `k` (most significant first) occupies positions
`k*n .. k*n + n - 1`, and element `i` is built from the bytes at positions
`k*n + i`. -/
def untranspose (w n : Nat) (bytes : List Nat) : List Nat :=
  (List.range n).map fun i =>
    (List.range w).foldl (fun acc k => acc * 256 + bytes.getD (k * n + i) 0) 0

/-- Reverse of the sign-folding (zig-zag) transform: even patterns map to
non-negative integers, odd patterns to negative ones. -/
def unzigzag (v : Nat) : Int :=
  if v % 2 = 0 then ((v / 2 : Nat) : Int) else -(((v + 1) / 2 : Nat) : Int)

/-- Modelled from the spec: `read_interleaved_i32_array` reads `4*n` bytes,
undoes the byte-plane transposition and reverses the sign-fold. -/
def readInterleavedI32Array (n : Nat) (s : List Nat) :
    Option (List Int × List Nat) :=
  (readExact (4 * n) s).map fun p => ((untranspose 4 n p.1).map unzigzag, p.2)

/-- Modelled from the spec: `read_interleaved_i64_array`, as the 32-bit
variant but 8 bytes wide. -/
def readInterleavedI64Array (n : Nat) (s : List Nat) :
    Option (List Int × List Nat) :=
  (readExact (8 * n) s).map fun p => ((untranspose 8 n p.1).map unzigzag, p.2)

/-- Modelled from the spec: `read_interleaved_f32_array` reads `4*n` bytes
and undoes the byte-plane transposition; each element is kept as its 32-bit
pattern. -/
def readInterleavedF32Array (n : Nat) (s : List Nat) :
    Option (List Nat × List Nat) :=
  (readExact (4 * n) s).map fun p => (untranspose 4 n p.1, p.2)

/-- Modelled from the spec: `read_referent_array` decodes referents as an
absolute sign-folded interleaved `i32` array (not incrementally chained). -/
def readReferentArray (n : Nat) (s : List Nat) : Option (List Int × List Nat) :=
  readInterleavedI32Array n s

/-- Modelled from the spec: the closed enumeration of property value kinds
(`Type` in the binary format's type module), one variant per one-byte value
type tag of the format. -/
inductive Ty
  | string
  | bool
  | int32
  | float32
  | float64
  | uDim
  | uDim2
  | ray
  | faces
  | axes
  | brickColor
  | color3
  | vector2
  | vector3
  | cframe
  | enumeration
  | ref
  | vector3int16
  | numberSequence
  | colorSequence
  | numberRange
  | rect
  | physicalProperties
  | color3uint8
  | int64
  deriving DecidableEq

/-- Modelled from the spec: conversion of the one-byte value-type tag into
the closed `Ty` enumeration (`TryInto<Type> for u8`); tags outside the
vocabulary are refused. -/
def Ty.fromTag (tag : Nat) : Option Ty :=
  match tag with
  | 0x01 => some .string
  | 0x02 => some .bool
  | 0x03 => some .int32
  | 0x04 => some .float32
  | 0x05 => some .float64
  | 0x06 => some .uDim
  | 0x07 => some .uDim2
  | 0x08 => some .ray
  | 0x09 => some .faces
  | 0x0A => some .axes
  | 0x0B => some .brickColor
  | 0x0C => some .color3
  | 0x0D => some .vector2
  | 0x0E => some .vector3
  | 0x10 => some .cframe
  | 0x12 => some .enumeration
  | 0x13 => some .ref
  | 0x14 => some .vector3int16
  | 0x15 => some .numberSequence
  | 0x16 => some .colorSequence
  | 0x17 => some .numberRange
  | 0x18 => some .rect
  | 0x19 => some .physicalProperties
  | 0x1A => some .color3uint8
  | 0x1B => some .int64
  | _ => none

/-- A 2-D scale/offset pair; `scale` is an `f32` kept as its bit pattern. -/
structure UDim where
  scale : Nat
  offset : Int
  deriving DecidableEq

/-- A nested pair of two scale/offset pairs. -/
structure UDim2 where
  x : UDim
  y : UDim
  deriving DecidableEq

/-- A 3-channel color; each channel is an `f32` kept as its bit pattern. -/
structure Color3 where
  r : Nat
  g : Nat
  b : Nat
  deriving DecidableEq

/-- A string with the same semantics as the format: it can be UTF-8 text,
but might not be.  Either variant carries the exact original bytes. -/
inductive RobloxString
  | string (bytes : List Nat)
  | binaryString (bytes : List Nat)
  deriving DecidableEq

/-- `From<Vec<u8>> for RobloxString`: classify a byte vector by UTF-8
validity; both outcomes keep the bytes unchanged. -/
def RobloxString.fromBytes (b : List Nat) : RobloxString :=
  if isValidUtf8 b then .string b else .binaryString b

/-- The bytes carried by either variant. -/
def RobloxString.bytes : RobloxString → List Nat
  | .string b => b
  | .binaryString b => b

/-- `true` exactly on the text variant. -/
def RobloxString.isText : RobloxString → Bool
  | .string _ => true
  | .binaryString _ => false

/-- Decoded value arrays, one case per value type the diagnostic
deserializer interprets (`DecodedValues`). -/
inductive DecodedValues
  | string (values : List RobloxString)
  | bool (values : List Bool)
  | int32 (values : List Int)
  | float32 (values : List Nat)
  | float64 (values : List Nat)
  | uDim (values : List UDim)
  | uDim2 (values : List UDim2)
  | color3 (values : List Color3)
  | vector2 (x : List Nat) (y : List Nat)
  | int64 (values : List Int)
  deriving DecidableEq

/-- Number of decoded values held (for `vector2`, the lanes share one
length; the first is reported). -/
def DecodedValues.length : DecodedValues → Nat
  | .string v => v.length
  | .bool v => v.length
  | .int32 v => v.length
  | .float32 v => v.length
  | .float64 v => v.length
  | .uDim v => v.length
  | .uDim2 v => v.length
  | .color3 v => v.length
  | .vector2 x _ => x.length
  | .int64 v => v.length

/-- The declared value type of a property chunk: a known member of the
closed enumeration, or the raw unrecognized tag byte (`DecodedPropType`). -/
inductive DecodedPropType
  | known (t : Ty)
  | unknown (tag : Nat)
  deriving DecidableEq

/-- The introspectable representation of one decoded chunk
(`DecodedChunk`).  String-typed fields hold the byte list of the string. -/
inductive DecodedChunk
  | meta (entries : List (List Nat × List Nat)) (remaining : List Nat)
  | inst (type_id : Nat) (type_name : List Nat) (object_format : Nat)
      (referents : List Int) (remaining : List Nat)
  | prop (type_id : Nat) (prop_name : List Nat) (prop_type : DecodedPropType)
      (values : Option DecodedValues) (remaining : List Nat)
  | prnt (version : Nat) (links : List (Int × Int)) (remaining : List Nat)
  | endChunk
  | unknown (name : List Nat) (contents : List Nat)
  deriving DecidableEq

/-- The undecoded trailing bytes a chunk representation retains. -/
def DecodedChunk.remainingBytes : DecodedChunk → List Nat
  | .meta _ r => r
  | .inst _ _ _ _ r => r
  | .prop _ _ _ _ r => r
  | .prnt _ _ r => r
  | .endChunk => []
  | .unknown _ c => c

/-- The per-decode bookkeeping mapping a type-id to its instance count
(`count_by_type_id`, a `HashMap<u32, usize>`), modelled as an association
list where an insert shadows earlier entries for the same key. -/
abbrev TypeCountMap := List (Nat × Nat)

/-- `HashMap::insert`: the new binding overwrites any earlier one. -/
def TypeCountMap.insert (k v : Nat) (m : TypeCountMap) : TypeCountMap :=
  (k, v) :: m

/-- `HashMap::get`: the most recently inserted binding for `k`, if any. -/
def TypeCountMap.get (k : Nat) (m : TypeCountMap) : Option Nat :=
  (List.find? (fun p => p.1 == k) m).map (fun p => p.2)

/-- The metadata entry loop of `decode_meta_chunk`: `n` (key, value) string
pairs. -/
def readPairs : Nat → List Nat → Option (List (List Nat × List Nat) × List Nat)
  | 0, s => some ([], s)
  | n + 1, s =>
    (readString s).bind fun p =>
      (readString p.2).bind fun q =>
        (readPairs n q.2).map fun r => ((p.1, q.1) :: r.1, r.2)

/-- The string-value loop of `DecodedValues::decode`: `n` length-prefixed
raw strings, each classified by UTF-8 validity. -/
def readStringsLoop : Nat → List Nat → Option (List RobloxString × List Nat)
  | 0, s => some ([], s)
  | n + 1, s =>
    (readBinaryString s).bind fun p =>
      (readStringsLoop n p.2).map fun r => (RobloxString.fromBytes p.1 :: r.1, r.2)

/-- The boolean-value loop of `DecodedValues::decode`: `n` one-byte
booleans. -/
def readBoolsLoop : Nat → List Nat → Option (List Bool × List Nat)
  | 0, s => some ([], s)
  | n + 1, s =>
    (readBool s).bind fun p =>
      (readBoolsLoop n p.2).map fun r => (p.1 :: r.1, r.2)

/-- The `f64`-value loop of `DecodedValues::decode`: `n` little-endian
64-bit values. -/
def readF64Loop : Nat → List Nat → Option (List Nat × List Nat)
  | 0, s => some ([], s)
  | n + 1, s =>
    (readF64le s).bind fun p =>
      (readF64Loop n p.2).map fun r => (p.1 :: r.1, r.2)

/-- `DecodedValues::decode`: decode `prop_count` values of the given type.
The outer `Option` is a fatal read failure; the inner `Option` is `none`
for a type the diagnostic deserializer does not interpret, in which case
the reader does not advance. -/
def decodeValues (s : List Nat) (prop_count : Nat) (prop_type : Ty) :
    Option (Option DecodedValues × List Nat) :=
  match prop_type with
  | .string =>
    (readStringsLoop prop_count s).map fun p => (some (.string p.1), p.2)
  | .bool =>
    (readBoolsLoop prop_count s).map fun p => (some (.bool p.1), p.2)
  | .int32 =>
    (readInterleavedI32Array prop_count s).map fun p =>
      (some (.int32 p.1), p.2)
  | .float32 =>
    (readInterleavedF32Array prop_count s).map fun p =>
      (some (.float32 p.1), p.2)
  | .float64 =>
    (readF64Loop prop_count s).map fun p => (some (.float64 p.1), p.2)
  | .uDim =>
    (readInterleavedF32Array prop_count s).bind fun scale =>
      (readInterleavedI32Array prop_count scale.2).map fun offset =>
        (some (.uDim (List.zipWith UDim.mk scale.1 offset.1)), offset.2)
  | .uDim2 =>
    (readInterleavedF32Array prop_count s).bind fun scale_x =>
      (readInterleavedF32Array prop_count scale_x.2).bind fun scale_y =>
        (readInterleavedI32Array prop_count scale_y.2).bind fun offset_x =>
          (readInterleavedI32Array prop_count offset_x.2).map fun offset_y =>
            (some (.uDim2 (List.zipWith UDim2.mk
              (List.zipWith UDim.mk scale_x.1 offset_x.1)
              (List.zipWith UDim.mk scale_y.1 offset_y.1))), offset_y.2)
  | .color3 =>
    (readInterleavedF32Array prop_count s).bind fun r =>
      (readInterleavedF32Array prop_count r.2).bind fun g =>
        (readInterleavedF32Array prop_count g.2).map fun b =>
          (some (.color3 (List.zipWith (fun rg bv => Color3.mk rg.1 rg.2 bv)
            (List.zipWith Prod.mk r.1 g.1) b.1)), b.2)
  | .vector2 =>
    (readInterleavedF32Array prop_count s).bind fun x =>
      (readInterleavedF32Array prop_count x.2).map fun y =>
        (some (.vector2 x.1 y.1), y.2)
  | .int64 =>
    (readInterleavedI64Array prop_count s).map fun p =>
      (some (.int64 p.1), p.2)
  | _ => some (none, s)

/-- `decode_meta_chunk`: entry count, that many (key, value) pairs, then
the rest of the payload retained verbatim. -/
def decodeMetaChunk (data : List Nat) : Option DecodedChunk :=
  (readU32le data).bind fun n =>
    (readPairs n.1 n.2).map fun p => DecodedChunk.meta p.1 p.2

/-- `decode_inst_chunk`: type-id, type name, object-format byte, instance
count, referent array; registers the count in the bookkeeping map and
retains the rest of the payload verbatim. -/
def decodeInstChunk (data : List Nat) (count_by_type_id : TypeCountMap) :
    Option (DecodedChunk × TypeCountMap) :=
  (readU32le data).bind fun tid =>
    (readString tid.2).bind fun tname =>
      (readU8 tname.2).bind fun fmt =>
        (readU32le fmt.2).bind fun n =>
          (readReferentArray n.1 n.2).map fun refs =>
            (DecodedChunk.inst tid.1 tname.1 fmt.1 refs.1 refs.2,
             TypeCountMap.insert tid.1 n.1 count_by_type_id)

/-- `decode_prop_chunk`: type-id, property name, one-byte value-type tag;
a known tag decodes values only when the type-id is registered (an
unregistered type-id is assumed to have no members, so no values); an
unknown tag keeps the raw tag byte with no values.  The rest of the
payload is retained verbatim. -/
def decodePropChunk (data : List Nat) (count_by_type_id : TypeCountMap) :
    Option DecodedChunk :=
  (readU32le data).bind fun tid =>
    (readString tid.2).bind fun pname =>
      (readU8 pname.2).bind fun tag =>
        match Ty.fromTag tag.1 with
        | some prop_type =>
          match TypeCountMap.get tid.1 count_by_type_id with
          | none =>
            some (.prop tid.1 pname.1 (.known prop_type) none tag.2)
          | some prop_count =>
            (decodeValues tag.2 prop_count prop_type).map fun v =>
              DecodedChunk.prop tid.1 pname.1 (.known prop_type) v.1 v.2
        | none =>
          some (.prop tid.1 pname.1 (.unknown tag.1) none tag.2)

/-- `decode_prnt_chunk`: version byte, referent count, subject and parent
referent arrays zipped into links; the rest of the payload retained
verbatim. -/
def decodePrntChunk (data : List Nat) : Option DecodedChunk :=
  (readU8 data).bind fun v =>
    (readU32le v.2).bind fun n =>
      (readReferentArray n.1 n.2).bind fun subjects =>
        (readReferentArray n.1 subjects.2).map fun parents =>
          DecodedChunk.prnt v.1 (List.zipWith Prod.mk subjects.1 parents.1)
            parents.2

/-- A framed chunk: its 4-byte name and decompressed payload. -/
structure RawChunk where
  name : List Nat
  data : List Nat
  deriving DecidableEq

/-- Modelled from the spec: the Chunk Framer reads a 4-byte chunk name, a
compressed length, a decompressed length, then the payload.  Compression
is an external pluggable byte transform and out of scope; the model covers
chunks stored uncompressed (compressed length field zero, payload stored
raw at its decompressed length). -/
def decodeChunk (s : List Nat) : Option (RawChunk × List Nat) :=
  (readExact 4 s).bind fun name =>
    (readU32le name.2).bind fun clen =>
      (readU32le clen.2).bind fun dlen =>
        if clen.1 = 0 then
          (readExact dlen.1 dlen.2).map fun data => (⟨name.1, data.1⟩, data.2)
        else none

/-- The chunk-name byte constants. -/
def metaName : List Nat := [0x4D, 0x45, 0x54, 0x41]

def instName : List Nat := [0x49, 0x4E, 0x53, 0x54]

def propName : List Nat := [0x50, 0x52, 0x4F, 0x50]

def prntName : List Nat := [0x50, 0x52, 0x4E, 0x54]

def endNameBytes : List Nat := [0x45, 0x4E, 0x44, 0x00]

/-- The per-chunk dispatch of `DecodedModel::from_reader`'s loop body for a
non-terminator chunk: interpret a known name, or retain an unknown chunk
under its lossily decoded name with its payload verbatim. -/
def dispatchChunk (c : RawChunk) (m : TypeCountMap) :
    Option (DecodedChunk × TypeCountMap) :=
  if c.name = metaName then
    (decodeMetaChunk c.data).map fun d => (d, m)
  else if c.name = instName then
    decodeInstChunk c.data m
  else if c.name = propName then
    (decodePropChunk c.data m).map fun d => (d, m)
  else if c.name = prntName then
    (decodePrntChunk c.data).map fun d => (d, m)
  else
    some (.unknown (utf8Lossy c.name) c.data, m)

/-- The chunk loop of `DecodedModel::from_reader`: frame chunks one at a
time, dispatch each, and stop after pushing the terminator.  `fuel` bounds
the number of iterations so the recursion is structural; every frame
consumes at least twelve bytes, so any fuel beyond the stream length is
enough. -/
def runChunks : Nat → TypeCountMap → List Nat →
    Option (List DecodedChunk × List Nat)
  | 0, _, _ => none
  | fuel + 1, m, s =>
    (decodeChunk s).bind fun c =>
      if c.1.name = endNameBytes then some ([.endChunk], c.2)
      else
        (dispatchChunk c.1 m).bind fun d =>
          (runChunks fuel d.2 c.2).map fun r => (d.1 :: r.1, r.2)

/-- Modelled from the spec: the file header carries a fixed magic
signature, a format version, and the advisory instance-type and
total-instance counts. -/
structure FileHeader where
  version : Nat
  num_types : Nat
  num_instances : Nat
  deriving DecidableEq

/-- Modelled from the spec: the fixed magic signature bytes that open every
file of the container format. -/
def magicBytes : List Nat :=
  [0x3C, 0x72, 0x6F, 0x62, 0x6C, 0x6F, 0x78, 0x21,
   0x89, 0xFF, 0x0D, 0x0A, 0x1A, 0x0A]

/-- Modelled from the spec: `FileHeader::decode` checks the magic
signature, then reads the format version and the two advisory counts. -/
def FileHeader.decode (s : List Nat) : Option (FileHeader × List Nat) :=
  (readExact magicBytes.length s).bind fun m =>
    if m.1 = magicBytes then
      (readU16le m.2).bind fun v =>
        (readU32le v.2).bind fun t =>
          (readU32le t.2).map fun i => (⟨v.1, t.1, i.1⟩, i.2)
    else none

/-- The introspectable decode result (`DecodedModel`). -/
structure DecodedModel where
  num_types : Nat
  num_instances : Nat
  chunks : List DecodedChunk
  deriving DecidableEq

/-- `DecodedModel::from_reader`: decode the header, then scan chunks until
the terminator, copying the advisory header counts into the result. -/
def DecodedModel.fromBytes (s : List Nat) : Option DecodedModel :=
  (FileHeader.decode s).bind fun h =>
    (runChunks (h.2.length + 1) [] h.2).map fun r =>
      { num_types := h.1.num_types
        num_instances := h.1.num_instances
        chunks := r.1 }

/-- Pure framing scan: count raw chunks until the terminator, using only
the Chunk Framer (no interpretation).  Used to state that the decoded
model retains every framed chunk. -/
def countRaw : Nat → List Nat → Option (Nat × List Nat)
  | 0, _ => none
  | fuel + 1, s =>
    (decodeChunk s).bind fun c =>
      if c.1.name = endNameBytes then some (1, c.2)
      else (countRaw fuel c.2).map fun r => (r.1 + 1, r.2)

/-! ## Reader lemmas: the unread part of the stream is a suffix -/

theorem readExact_suffix {n : Nat} {s xs r : List Nat}
    (h : readExact n s = some (xs, r)) : r <:+ s := by
  unfold readExact at h
  split at h
  · cases h; exact List.drop_suffix n s
  · cases h

theorem readU8_suffix {s : List Nat} {b : Nat} {r : List Nat}
    (h : readU8 s = some (b, r)) : r <:+ s := by
  cases s with
  | nil => cases h
  | cons x xs =>
    unfold readU8 at h
    cases h
    exact List.suffix_cons _ _

theorem readU32le_suffix {s r : List Nat} {v : Nat}
    (h : readU32le s = some (v, r)) : r <:+ s := by
  unfold readU32le at h
  rw [Option.map_eq_some'] at h
  obtain ⟨⟨a, b⟩, hp, he⟩ := h
  cases he
  exact readExact_suffix hp

theorem readF64le_suffix {s r : List Nat} {v : Nat}
    (h : readF64le s = some (v, r)) : r <:+ s := by
  unfold readF64le at h
  rw [Option.map_eq_some'] at h
  obtain ⟨⟨a, b⟩, hp, he⟩ := h
  cases he
  exact readExact_suffix hp

theorem readString_suffix {s xs r : List Nat}
    (h : readString s = some (xs, r)) : r <:+ s := by
  unfold readString at h
  rw [Option.bind_eq_some] at h
  obtain ⟨p, hp, h⟩ := h
  rw [Option.bind_eq_some] at h
  obtain ⟨q, hq, h⟩ := h
  split at h
  · cases h
    exact (readExact_suffix hq).trans (readU32le_suffix hp)
  · cases h

theorem readBinaryString_suffix {s xs r : List Nat}
    (h : readBinaryString s = some (xs, r)) : r <:+ s := by
  unfold readBinaryString at h
  rw [Option.bind_eq_some] at h
  obtain ⟨p, hp, h⟩ := h
  exact (readExact_suffix h).trans (readU32le_suffix hp)

theorem readBool_suffix {s r : List Nat} {b : Bool}
    (h : readBool s = some (b, r)) : r <:+ s := by
  unfold readBool at h
  rw [Option.map_eq_some'] at h
  obtain ⟨⟨a, t⟩, hp, he⟩ := h
  cases he
  exact readU8_suffix hp

theorem readInterleavedI32Array_suffix {n : Nat} {s r : List Nat} {v : List Int}
    (h : readInterleavedI32Array n s = some (v, r)) : r <:+ s := by
  unfold readInterleavedI32Array at h
  rw [Option.map_eq_some'] at h
  obtain ⟨⟨a, b⟩, hp, he⟩ := h
  cases he
  exact readExact_suffix hp

theorem readInterleavedI64Array_suffix {n : Nat} {s r : List Nat} {v : List Int}
    (h : readInterleavedI64Array n s = some (v, r)) : r <:+ s := by
  unfold readInterleavedI64Array at h
  rw [Option.map_eq_some'] at h
  obtain ⟨⟨a, b⟩, hp, he⟩ := h
  cases he
  exact readExact_suffix hp

theorem readInterleavedF32Array_suffix {n : Nat} {s r : List Nat} {v : List Nat}
    (h : readInterleavedF32Array n s = some (v, r)) : r <:+ s := by
  unfold readInterleavedF32Array at h
  rw [Option.map_eq_some'] at h
  obtain ⟨⟨a, b⟩, hp, he⟩ := h
  cases he
  exact readExact_suffix hp

theorem readReferentArray_suffix {n : Nat} {s r : List Nat} {v : List Int}
    (h : readReferentArray n s = some (v, r)) : r <:+ s :=
  readInterleavedI32Array_suffix h

theorem readPairs_suffix {n : Nat} {s r : List Nat}
    {es : List (List Nat × List Nat)}
    (h : readPairs n s = some (es, r)) : r <:+ s := by
  induction n generalizing s es with
  | zero => cases h; exact List.suffix_rfl
  | succ n ih =>
    unfold readPairs at h
    rw [Option.bind_eq_some] at h
    obtain ⟨p, hp, h⟩ := h
    rw [Option.bind_eq_some] at h
    obtain ⟨q, hq, h⟩ := h
    rw [Option.map_eq_some'] at h
    obtain ⟨t, ht, he⟩ := h
    cases he
    exact ((ih ht).trans (readString_suffix hq)).trans (readString_suffix hp)

theorem readStringsLoop_suffix {n : Nat} {s r : List Nat} {vs : List RobloxString}
    (h : readStringsLoop n s = some (vs, r)) : r <:+ s := by
  induction n generalizing s vs with
  | zero => cases h; exact List.suffix_rfl
  | succ n ih =>
    unfold readStringsLoop at h
    rw [Option.bind_eq_some] at h
    obtain ⟨p, hp, h⟩ := h
    rw [Option.map_eq_some'] at h
    obtain ⟨t, ht, he⟩ := h
    cases he
    exact (ih ht).trans (readBinaryString_suffix hp)

theorem readBoolsLoop_suffix {n : Nat} {s r : List Nat} {vs : List Bool}
    (h : readBoolsLoop n s = some (vs, r)) : r <:+ s := by
  induction n generalizing s vs with
  | zero => cases h; exact List.suffix_rfl
  | succ n ih =>
    unfold readBoolsLoop at h
    rw [Option.bind_eq_some] at h
    obtain ⟨p, hp, h⟩ := h
    rw [Option.map_eq_some'] at h
    obtain ⟨t, ht, he⟩ := h
    cases he
    exact (ih ht).trans (readBool_suffix hp)

theorem readF64Loop_suffix {n : Nat} {s r : List Nat} {vs : List Nat}
    (h : readF64Loop n s = some (vs, r)) : r <:+ s := by
  induction n generalizing s vs with
  | zero => cases h; exact List.suffix_rfl
  | succ n ih =>
    unfold readF64Loop at h
    rw [Option.bind_eq_some] at h
    obtain ⟨p, hp, h⟩ := h
    rw [Option.map_eq_some'] at h
    obtain ⟨t, ht, he⟩ := h
    cases he
    exact (ih ht).trans (readF64le_suffix hp)

theorem decodeValues_suffix {s : List Nat} {cnt : Nat} {ty : Ty}
    {v : Option DecodedValues} {r : List Nat}
    (h : decodeValues s cnt ty = some (v, r)) : r <:+ s := by
  cases ty with
  | string =>
    simp only [decodeValues, Option.map_eq_some'] at h
    obtain ⟨⟨a, b⟩, hp, he⟩ := h
    cases he
    exact readStringsLoop_suffix hp
  | bool =>
    simp only [decodeValues, Option.map_eq_some'] at h
    obtain ⟨⟨a, b⟩, hp, he⟩ := h
    cases he
    exact readBoolsLoop_suffix hp
  | int32 =>
    simp only [decodeValues, Option.map_eq_some'] at h
    obtain ⟨⟨a, b⟩, hp, he⟩ := h
    cases he
    exact readInterleavedI32Array_suffix hp
  | float32 =>
    simp only [decodeValues, Option.map_eq_some'] at h
    obtain ⟨⟨a, b⟩, hp, he⟩ := h
    cases he
    exact readInterleavedF32Array_suffix hp
  | float64 =>
    simp only [decodeValues, Option.map_eq_some'] at h
    obtain ⟨⟨a, b⟩, hp, he⟩ := h
    cases he
    exact readF64Loop_suffix hp
  | uDim =>
    simp only [decodeValues, Option.bind_eq_some, Option.map_eq_some'] at h
    obtain ⟨⟨a, s1⟩, h1, ⟨b, s2⟩, h2, he⟩ := h
    cases he
    exact (readInterleavedI32Array_suffix h2).trans
      (readInterleavedF32Array_suffix h1)
  | uDim2 =>
    simp only [decodeValues, Option.bind_eq_some, Option.map_eq_some'] at h
    obtain ⟨⟨a, s1⟩, h1, ⟨b, s2⟩, h2, ⟨c, s3⟩, h3, ⟨d, s4⟩, h4, he⟩ := h
    cases he
    exact (((readInterleavedI32Array_suffix h4).trans
      (readInterleavedI32Array_suffix h3)).trans
      (readInterleavedF32Array_suffix h2)).trans
      (readInterleavedF32Array_suffix h1)
  | color3 =>
    simp only [decodeValues, Option.bind_eq_some, Option.map_eq_some'] at h
    obtain ⟨⟨a, s1⟩, h1, ⟨b, s2⟩, h2, ⟨c, s3⟩, h3, he⟩ := h
    cases he
    exact ((readInterleavedF32Array_suffix h3).trans
      (readInterleavedF32Array_suffix h2)).trans
      (readInterleavedF32Array_suffix h1)
  | vector2 =>
    simp only [decodeValues, Option.bind_eq_some, Option.map_eq_some'] at h
    obtain ⟨⟨a, s1⟩, h1, ⟨b, s2⟩, h2, he⟩ := h
    cases he
    exact (readInterleavedF32Array_suffix h2).trans
      (readInterleavedF32Array_suffix h1)
  | int64 =>
    simp only [decodeValues, Option.map_eq_some'] at h
    obtain ⟨⟨a, b⟩, hp, he⟩ := h
    cases he
    exact readInterleavedI64Array_suffix hp
  | ray => cases h; exact List.suffix_rfl
  | faces => cases h; exact List.suffix_rfl
  | axes => cases h; exact List.suffix_rfl
  | brickColor => cases h; exact List.suffix_rfl
  | vector3 => cases h; exact List.suffix_rfl
  | cframe => cases h; exact List.suffix_rfl
  | enumeration => cases h; exact List.suffix_rfl
  | ref => cases h; exact List.suffix_rfl
  | vector3int16 => cases h; exact List.suffix_rfl
  | numberSequence => cases h; exact List.suffix_rfl
  | colorSequence => cases h; exact List.suffix_rfl
  | numberRange => cases h; exact List.suffix_rfl
  | rect => cases h; exact List.suffix_rfl
  | physicalProperties => cases h; exact List.suffix_rfl
  | color3uint8 => cases h; exact List.suffix_rfl

/-! ## Chunk-decoder lemmas: retained trailing bytes are a payload suffix -/

theorem decodeMetaChunk_shape {p : List Nat} {c : DecodedChunk}
    (h : decodeMetaChunk p = some c) :
    ∃ es rem, c = .meta es rem ∧ rem <:+ p := by
  unfold decodeMetaChunk at h
  simp only [Option.bind_eq_some, Option.map_eq_some'] at h
  obtain ⟨⟨n, s1⟩, h1, ⟨es, s2⟩, h2, he⟩ := h
  exact ⟨es, s2, he.symm, (readPairs_suffix h2).trans (readU32le_suffix h1)⟩

theorem decodeInstChunk_shape {p : List Nat} {m m' : TypeCountMap}
    {c : DecodedChunk} (h : decodeInstChunk p m = some (c, m')) :
    ∃ tid tn fmt refs rem, c = .inst tid tn fmt refs rem ∧ rem <:+ p ∧
      m' = TypeCountMap.insert tid refs.length m := by
  unfold decodeInstChunk at h
  simp only [Option.bind_eq_some, Option.map_eq_some'] at h
  obtain ⟨⟨tid, s1⟩, h1, ⟨tn, s2⟩, h2, ⟨fmt, s3⟩, h3, ⟨n, s4⟩, h4,
    ⟨refs, s5⟩, h5, he⟩ := h
  obtain ⟨he1, he2⟩ := Prod.mk.injEq .. ▸ he
  refine ⟨tid, tn, fmt, refs, s5, he1.symm, ?_, ?_⟩
  · exact ((((readReferentArray_suffix h5).trans (readU32le_suffix h4)).trans
      (readU8_suffix h3)).trans (readString_suffix h2)).trans
      (readU32le_suffix h1)
  · have hlen : refs.length = n := by
      unfold readReferentArray readInterleavedI32Array at h5
      rw [Option.map_eq_some'] at h5
      obtain ⟨⟨a, b⟩, hp, hq⟩ := h5
      have := congrArg Prod.fst hq
      simp only at this
      rw [← this, List.length_map]
      simp [untranspose]
    rw [← he2, hlen]

theorem decodePropChunk_shape {p : List Nat} {m : TypeCountMap}
    {c : DecodedChunk} (h : decodePropChunk p m = some c) :
    ∃ tid pn pt vals rem, c = .prop tid pn pt vals rem ∧ rem <:+ p := by
  unfold decodePropChunk at h
  simp only [Option.bind_eq_some] at h
  obtain ⟨⟨tid, s1⟩, h1, ⟨pn, s2⟩, h2, ⟨tag, s3⟩, h3, h⟩ := h
  have hs3 : s3 <:+ p :=
    ((readU8_suffix h3).trans (readString_suffix h2)).trans (readU32le_suffix h1)
  split at h
  · split at h
    · cases h
      exact ⟨_, _, _, _, _, rfl, hs3⟩
    · rw [Option.map_eq_some'] at h
      obtain ⟨⟨v, s4⟩, hv, he⟩ := h
      exact ⟨_, _, _, _, _, he.symm, (decodeValues_suffix hv).trans hs3⟩
  · cases h
    exact ⟨_, _, _, _, _, rfl, hs3⟩

theorem decodePrntChunk_shape {p : List Nat} {c : DecodedChunk}
    (h : decodePrntChunk p = some c) :
    ∃ v links rem, c = .prnt v links rem ∧ rem <:+ p := by
  unfold decodePrntChunk at h
  simp only [Option.bind_eq_some, Option.map_eq_some'] at h
  obtain ⟨⟨v, s1⟩, h1, ⟨n, s2⟩, h2, ⟨subjects, s3⟩, h3, ⟨parents, s4⟩, h4, he⟩ := h
  refine ⟨_, _, _, he.symm, ?_⟩
  exact (((readReferentArray_suffix h4).trans (readReferentArray_suffix h3)).trans
    (readU32le_suffix h2)).trans (readU8_suffix h1)

theorem decodeChunk_suffix {s r : List Nat} {c : RawChunk}
    (h : decodeChunk s = some (c, r)) : r <:+ s := by
  unfold decodeChunk at h
  simp only [Option.bind_eq_some] at h
  obtain ⟨⟨name, s1⟩, h1, ⟨clen, s2⟩, h2, ⟨dlen, s3⟩, h3, h⟩ := h
  split at h
  · rw [Option.map_eq_some'] at h
    obtain ⟨⟨data, s4⟩, h4, he⟩ := h
    obtain ⟨he1, he2⟩ := Prod.mk.injEq .. ▸ he
    rw [← he2]
    exact (((readExact_suffix h4).trans (readU32le_suffix h3)).trans
      (readU32le_suffix h2)).trans (readExact_suffix h1)
  · cases h

/-- No dispatch outcome is the terminator entry. -/
theorem dispatchChunk_ne_end {c : RawChunk} {m m' : TypeCountMap}
    {d : DecodedChunk} (h : dispatchChunk c m = some (d, m')) :
    d ≠ .endChunk := by
  unfold dispatchChunk at h
  split at h
  · rw [Option.map_eq_some'] at h
    obtain ⟨x, hx, he⟩ := h
    obtain ⟨he1, he2⟩ := Prod.mk.injEq .. ▸ he
    obtain ⟨es, rem, hc, _⟩ := decodeMetaChunk_shape hx
    rw [← he1, hc]
    intro hcon
    cases hcon
  · split at h
    · obtain ⟨tid, tn, fmt, refs, rem, hc, _, _⟩ := decodeInstChunk_shape h
      rw [hc]
      intro hcon
      cases hcon
    · split at h
      · rw [Option.map_eq_some'] at h
        obtain ⟨x, hx, he⟩ := h
        obtain ⟨he1, he2⟩ := Prod.mk.injEq .. ▸ he
        obtain ⟨tid, pn, pt, vals, rem, hc, _⟩ := decodePropChunk_shape hx
        rw [← he1, hc]
        intro hcon
        cases hcon
      · split at h
        · rw [Option.map_eq_some'] at h
          obtain ⟨x, hx, he⟩ := h
          obtain ⟨he1, he2⟩ := Prod.mk.injEq .. ▸ he
          obtain ⟨v, links, rem, hc, _⟩ := decodePrntChunk_shape hx
          rw [← he1, hc]
          intro hcon
          cases hcon
        · cases h
          intro hcon
          cases hcon

/-! ## Length lemmas: a lane read of count `n` yields exactly `n` elements -/

theorem untranspose_length (w n : Nat) (b : List Nat) :
    (untranspose w n b).length = n := by
  simp [untranspose]

theorem readInterleavedI32Array_length {n : Nat} {s r : List Nat} {v : List Int}
    (h : readInterleavedI32Array n s = some (v, r)) : v.length = n := by
  unfold readInterleavedI32Array at h
  rw [Option.map_eq_some'] at h
  obtain ⟨⟨a, b⟩, hp, he⟩ := h
  obtain ⟨he1, he2⟩ := Prod.mk.injEq .. ▸ he
  rw [← he1, List.length_map, untranspose_length]

theorem readInterleavedI64Array_length {n : Nat} {s r : List Nat} {v : List Int}
    (h : readInterleavedI64Array n s = some (v, r)) : v.length = n := by
  unfold readInterleavedI64Array at h
  rw [Option.map_eq_some'] at h
  obtain ⟨⟨a, b⟩, hp, he⟩ := h
  obtain ⟨he1, he2⟩ := Prod.mk.injEq .. ▸ he
  rw [← he1, List.length_map, untranspose_length]

theorem readInterleavedF32Array_length {n : Nat} {s r : List Nat} {v : List Nat}
    (h : readInterleavedF32Array n s = some (v, r)) : v.length = n := by
  unfold readInterleavedF32Array at h
  rw [Option.map_eq_some'] at h
  obtain ⟨⟨a, b⟩, hp, he⟩ := h
  obtain ⟨he1, he2⟩ := Prod.mk.injEq .. ▸ he
  rw [← he1, untranspose_length]

theorem readStringsLoop_length {n : Nat} {s r : List Nat} {vs : List RobloxString}
    (h : readStringsLoop n s = some (vs, r)) : vs.length = n := by
  induction n generalizing s vs r with
  | zero => cases h; rfl
  | succ n ih =>
    unfold readStringsLoop at h
    simp only [Option.bind_eq_some, Option.map_eq_some'] at h
    obtain ⟨⟨a, s1⟩, h1, ⟨t, s2⟩, h2, he⟩ := h
    obtain ⟨he1, he2⟩ := Prod.mk.injEq .. ▸ he
    rw [← he1, List.length_cons, ih h2]

theorem readBoolsLoop_length {n : Nat} {s r : List Nat} {vs : List Bool}
    (h : readBoolsLoop n s = some (vs, r)) : vs.length = n := by
  induction n generalizing s vs r with
  | zero => cases h; rfl
  | succ n ih =>
    unfold readBoolsLoop at h
    simp only [Option.bind_eq_some, Option.map_eq_some'] at h
    obtain ⟨⟨a, s1⟩, h1, ⟨t, s2⟩, h2, he⟩ := h
    obtain ⟨he1, he2⟩ := Prod.mk.injEq .. ▸ he
    rw [← he1, List.length_cons, ih h2]

theorem readF64Loop_length {n : Nat} {s r : List Nat} {vs : List Nat}
    (h : readF64Loop n s = some (vs, r)) : vs.length = n := by
  induction n generalizing s vs r with
  | zero => cases h; rfl
  | succ n ih =>
    unfold readF64Loop at h
    simp only [Option.bind_eq_some, Option.map_eq_some'] at h
    obtain ⟨⟨a, s1⟩, h1, ⟨t, s2⟩, h2, he⟩ := h
    obtain ⟨he1, he2⟩ := Prod.mk.injEq .. ▸ he
    rw [← he1, List.length_cons, ih h2]

/-- Whenever the diagnostic deserializer decodes a value array at a
registered count, it holds exactly that many values. -/
theorem decodeValues_length {s : List Nat} {cnt : Nat} {ty : Ty}
    {v : DecodedValues} {r : List Nat}
    (h : decodeValues s cnt ty = some (some v, r)) :
    v.length = cnt := by
  cases ty with
  | string =>
    simp only [decodeValues, Option.map_eq_some'] at h
    obtain ⟨⟨a, b⟩, hp, he⟩ := h
    obtain ⟨he1, he2⟩ := Prod.mk.injEq .. ▸ he
    cases he1
    exact readStringsLoop_length hp
  | bool =>
    simp only [decodeValues, Option.map_eq_some'] at h
    obtain ⟨⟨a, b⟩, hp, he⟩ := h
    obtain ⟨he1, he2⟩ := Prod.mk.injEq .. ▸ he
    cases he1
    exact readBoolsLoop_length hp
  | int32 =>
    simp only [decodeValues, Option.map_eq_some'] at h
    obtain ⟨⟨a, b⟩, hp, he⟩ := h
    obtain ⟨he1, he2⟩ := Prod.mk.injEq .. ▸ he
    cases he1
    exact readInterleavedI32Array_length hp
  | float32 =>
    simp only [decodeValues, Option.map_eq_some'] at h
    obtain ⟨⟨a, b⟩, hp, he⟩ := h
    obtain ⟨he1, he2⟩ := Prod.mk.injEq .. ▸ he
    cases he1
    exact readInterleavedF32Array_length hp
  | float64 =>
    simp only [decodeValues, Option.map_eq_some'] at h
    obtain ⟨⟨a, b⟩, hp, he⟩ := h
    obtain ⟨he1, he2⟩ := Prod.mk.injEq .. ▸ he
    cases he1
    exact readF64Loop_length hp
  | uDim =>
    simp only [decodeValues, Option.bind_eq_some, Option.map_eq_some'] at h
    obtain ⟨⟨a, s1⟩, h1, ⟨b, s2⟩, h2, he⟩ := h
    obtain ⟨he1, he2⟩ := Prod.mk.injEq .. ▸ he
    cases he1
    simp only [DecodedValues.length, List.length_zipWith,
      readInterleavedF32Array_length h1, readInterleavedI32Array_length h2,
      Nat.min_self]
  | uDim2 =>
    simp only [decodeValues, Option.bind_eq_some, Option.map_eq_some'] at h
    obtain ⟨⟨a, s1⟩, h1, ⟨b, s2⟩, h2, ⟨c, s3⟩, h3, ⟨d, s4⟩, h4, he⟩ := h
    obtain ⟨he1, he2⟩ := Prod.mk.injEq .. ▸ he
    cases he1
    simp only [DecodedValues.length, List.length_zipWith,
      readInterleavedF32Array_length h1, readInterleavedF32Array_length h2,
      readInterleavedI32Array_length h3, readInterleavedI32Array_length h4,
      Nat.min_self]
  | color3 =>
    simp only [decodeValues, Option.bind_eq_some, Option.map_eq_some'] at h
    obtain ⟨⟨a, s1⟩, h1, ⟨b, s2⟩, h2, ⟨c, s3⟩, h3, he⟩ := h
    obtain ⟨he1, he2⟩ := Prod.mk.injEq .. ▸ he
    cases he1
    simp only [DecodedValues.length, List.length_zipWith,
      readInterleavedF32Array_length h1, readInterleavedF32Array_length h2,
      readInterleavedF32Array_length h3, Nat.min_self]
  | vector2 =>
    simp only [decodeValues, Option.bind_eq_some, Option.map_eq_some'] at h
    obtain ⟨⟨a, s1⟩, h1, ⟨b, s2⟩, h2, he⟩ := h
    obtain ⟨he1, he2⟩ := Prod.mk.injEq .. ▸ he
    cases he1
    simp only [DecodedValues.length, readInterleavedF32Array_length h1]
  | int64 =>
    simp only [decodeValues, Option.map_eq_some'] at h
    obtain ⟨⟨a, b⟩, hp, he⟩ := h
    obtain ⟨he1, he2⟩ := Prod.mk.injEq .. ▸ he
    cases he1
    exact readInterleavedI64Array_length hp
  | ray => simp [decodeValues] at h
  | faces => simp [decodeValues] at h
  | axes => simp [decodeValues] at h
  | brickColor => simp [decodeValues] at h
  | vector3 => simp [decodeValues] at h
  | cframe => simp [decodeValues] at h
  | enumeration => simp [decodeValues] at h
  | ref => simp [decodeValues] at h
  | vector3int16 => simp [decodeValues] at h
  | numberSequence => simp [decodeValues] at h
  | colorSequence => simp [decodeValues] at h
  | numberRange => simp [decodeValues] at h
  | rect => simp [decodeValues] at h
  | physicalProperties => simp [decodeValues] at h
  | color3uint8 => simp [decodeValues] at h

end RbxDom

namespace RbxDom

/-! ## Append lemmas: a successful read ignores bytes beyond those consumed -/

theorem readExact_append {n : Nat} {s xs r : List Nat} (t : List Nat)
    (h : readExact n s = some (xs, r)) :
    readExact n (s ++ t) = some (xs, r ++ t) := by
  unfold readExact at h ⊢
  split at h
  · rename_i hle
    cases h
    rw [if_pos (by simp; omega)]
    have hsub : n - s.length = 0 := Nat.sub_eq_zero_of_le hle
    rw [List.take_append_eq_append_take, List.drop_append_eq_append_drop, hsub]
    simp
  · cases h

theorem readU32le_append {s r : List Nat} {v : Nat} (t : List Nat)
    (h : readU32le s = some (v, r)) :
    readU32le (s ++ t) = some (v, r ++ t) := by
  unfold readU32le at h ⊢
  rw [Option.map_eq_some'] at h
  obtain ⟨⟨a, b⟩, hp, he⟩ := h
  rw [readExact_append t hp, Option.map_some']
  cases he
  rfl

theorem decodeChunk_append {s r : List Nat} {c : RawChunk} (t : List Nat)
    (h : decodeChunk s = some (c, r)) :
    decodeChunk (s ++ t) = some (c, r ++ t) := by
  unfold decodeChunk at h ⊢
  simp only [Option.bind_eq_some] at h
  obtain ⟨⟨name, s1⟩, h1, ⟨clen, s2⟩, h2, ⟨dlen, s3⟩, h3, h⟩ := h
  rw [readExact_append t h1]
  simp only [Option.some_bind]
  rw [readU32le_append t h2]
  simp only [Option.some_bind]
  rw [readU32le_append t h3]
  simp only [Option.some_bind]
  split at h
  · rename_i hz
    rw [if_pos (show clen = 0 from hz)]
    rw [Option.map_eq_some'] at h
    obtain ⟨⟨data, s4⟩, h4, he⟩ := h
    rw [readExact_append t h4, Option.map_some']
    cases he
    rfl
  · rename_i hz
    cases h

theorem runChunks_append {fuel : Nat} {m : TypeCountMap} {s rest : List Nat}
    {cs : List DecodedChunk} (t : List Nat)
    (h : runChunks fuel m s = some (cs, rest)) :
    runChunks fuel m (s ++ t) = some (cs, rest ++ t) := by
  induction fuel generalizing m s cs rest with
  | zero => cases h
  | succ fuel ih =>
    unfold runChunks at h ⊢
    simp only [Option.bind_eq_some] at h
    obtain ⟨⟨c, r⟩, hc, h⟩ := h
    rw [decodeChunk_append t hc]
    simp only [Option.some_bind]
    split at h
    · rename_i hend
      rw [if_pos hend]
      cases h
      rfl
    · rename_i hend
      rw [if_neg hend]
      simp only [Option.bind_eq_some] at h
      obtain ⟨⟨d, m'⟩, hd, h⟩ := h
      rw [hd]
      simp only [Option.some_bind]
      rw [Option.map_eq_some'] at h
      obtain ⟨⟨cs', rest'⟩, hrec, he⟩ := h
      rw [ih hrec, Option.map_some']
      cases he
      rfl

/-! ## Structure of a completed chunk scan -/

/-- A successful chunk scan ends with exactly one terminator entry, in last
position, and leaves the unread part of the source as a suffix. -/
theorem runChunks_structure {fuel : Nat} {m : TypeCountMap} {s rest : List Nat}
    {cs : List DecodedChunk}
    (h : runChunks fuel m s = some (cs, rest)) :
    cs ≠ [] ∧ cs.getLast? = some .endChunk ∧
      cs.count DecodedChunk.endChunk = 1 ∧ rest <:+ s := by
  induction fuel generalizing m s cs rest with
  | zero => cases h
  | succ fuel ih =>
    unfold runChunks at h
    simp only [Option.bind_eq_some] at h
    obtain ⟨⟨c, r⟩, hc, h⟩ := h
    split at h
    · cases h
      refine ⟨by simp, rfl, rfl, decodeChunk_suffix hc⟩
    · simp only [Option.bind_eq_some, Option.map_eq_some'] at h
      obtain ⟨⟨d, m'⟩, hd, ⟨cs', rest'⟩, hrec, he⟩ := h
      obtain ⟨he1, he2⟩ := Prod.mk.injEq .. ▸ he
      obtain ⟨hne, hlast, hcount, hsuffix⟩ := ih hrec
      rw [← he1, ← he2]
      refine ⟨by simp, ?_, ?_, hsuffix.trans (decodeChunk_suffix hc)⟩
      · cases cs' with
        | nil => exact absurd rfl hne
        | cons x xs => rw [List.getLast?_cons_cons]; exact hlast
      · have hne2 : d ≠ DecodedChunk.endChunk := dispatchChunk_ne_end hd
        simp [List.count_cons, hcount, hne2]

/-- A successful interpretation retains one decoded chunk per framed chunk:
the scan agrees with the pure framing count, ending at the same position. -/
theorem runChunks_countRaw {fuel : Nat} {m : TypeCountMap} {s rest : List Nat}
    {cs : List DecodedChunk}
    (h : runChunks fuel m s = some (cs, rest)) :
    countRaw fuel s = some (cs.length, rest) := by
  induction fuel generalizing m s cs rest with
  | zero => cases h
  | succ fuel ih =>
    unfold runChunks at h
    unfold countRaw
    simp only [Option.bind_eq_some] at h
    obtain ⟨⟨c, r⟩, hc, h⟩ := h
    rw [hc]
    simp only [Option.some_bind]
    split at h
    · rename_i hend
      rw [if_pos hend]
      cases h
      rfl
    · rename_i hend
      rw [if_neg hend]
      simp only [Option.bind_eq_some, Option.map_eq_some'] at h
      obtain ⟨⟨d, m'⟩, hd, ⟨cs', rest'⟩, hrec, he⟩ := h
      obtain ⟨he1, he2⟩ := Prod.mk.injEq .. ▸ he
      rw [ih hrec, Option.map_some']
      rw [← he1, ← he2]
      rfl

end RbxDom

namespace RbxDom

/-! ## Exact-encoding lemmas -/

theorem readExact_run {n : Nat} {xs : List Nat} (t : List Nat)
    (h : xs.length = n) : readExact n (xs ++ t) = some (xs, t) := by
  subst h
  unfold readExact
  rw [if_pos (by simp)]
  rw [List.take_left, List.drop_left]

theorem fromLEBytes_u32le (v : Nat) : fromLEBytes (u32le v) = v % 4294967296 := by
  simp only [fromLEBytes, u32le, List.foldr]
  omega

theorem fromLEBytes_u16le (v : Nat) : fromLEBytes (u16le v) = v % 65536 := by
  simp only [fromLEBytes, u16le, List.foldr]
  omega

theorem readU32le_run (v : Nat) (t : List Nat) :
    readU32le (u32le v ++ t) = some (v % 4294967296, t) := by
  unfold readU32le
  rw [readExact_run t (by simp [u32le]), Option.map_some', fromLEBytes_u32le]

theorem readU16le_run (v : Nat) (t : List Nat) :
    readU16le (u16le v ++ t) = some (v % 65536, t) := by
  unfold readU16le
  rw [readExact_run t (by simp [u16le]), Option.map_some', fromLEBytes_u16le]

/-- Index-wise description of a zip of two lanes. -/
theorem zipWith_get?_of_lt {α β γ : Type} (f : α → β → γ) (d1 : α) (d2 : β) :
    ∀ (l1 : List α) (l2 : List β) (i : Nat), i < l1.length → i < l2.length →
      (List.zipWith f l1 l2).get? i = some (f (l1.getD i d1) (l2.getD i d2))
  | [], _, i, h1, _ => absurd h1 (by simp)
  | _ :: _, [], i, _, h2 => absurd h2 (by simp)
  | a :: l1, b :: l2, 0, _, _ => rfl
  | a :: l1, b :: l2, i + 1, h1, h2 =>
    zipWith_get?_of_lt f d1 d2 l1 l2 i (Nat.lt_of_succ_lt_succ h1)
      (Nat.lt_of_succ_lt_succ h2)


end RbxDom

namespace RbxDom

set_option maxHeartbeats 1000000 in
/-- On valid UTF-8 input, lossy decoding is the identity. -/
theorem utf8Lossy_of_valid : ∀ l, isValidUtf8 l = true → utf8Lossy l = l := by
  intro l
  induction l using utf8Lossy.induct
  all_goals intro hv
  all_goals rw [utf8Lossy]
  all_goals rw [isValidUtf8] at hv
  all_goals simp only [*, Bool.and_eq_true, if_true, if_false, ite_true,
    ite_false, decide_eq_true_eq] at hv ⊢
  all_goals try rfl
  all_goals simp_all

end RbxDom

namespace RbxDom

/-! ## Bookkeeping and composition lemmas -/

theorem TypeCountMap.get_insert_self (k v : Nat) (m : TypeCountMap) :
    TypeCountMap.get k (TypeCountMap.insert k v m) = some v := by
  simp [TypeCountMap.get, TypeCountMap.insert, List.find?]

/-- A successfully decoded instance chunk registers its type-id with the
number of referents it declared, shadowing any earlier registration. -/
theorem decodeInstChunk_inserts {d : List Nat} {m m' : TypeCountMap}
    {tid : Nat} {tn : List Nat} {fmt : Nat} {refs : List Int} {rem : List Nat}
    (h : decodeInstChunk d m = some (.inst tid tn fmt refs rem, m')) :
    m' = TypeCountMap.insert tid refs.length m := by
  obtain ⟨tid', tn', fmt', refs', rem', hc, _, hm⟩ := decodeInstChunk_shape h
  injection hc with e1 e2 e3 e4 e5
  subst e1
  subst e4
  exact hm

/-- When a property chunk decodes an array of values, the registered count
for its type-id equals the number of decoded values. -/
theorem decodePropChunk_values_length {data : List Nat} {m : TypeCountMap}
    {tid : Nat} {pn : List Nat} {pt : DecodedPropType} {vs : DecodedValues}
    {rem : List Nat}
    (h : decodePropChunk data m = some (.prop tid pn pt (some vs) rem)) :
    TypeCountMap.get tid m = some vs.length := by
  unfold decodePropChunk at h
  simp only [Option.bind_eq_some] at h
  obtain ⟨⟨tid1, s1⟩, h1, ⟨pn1, s2⟩, h2, ⟨tag, s3⟩, h3, h⟩ := h
  split at h
  · split at h
    · cases h
    · rename_i cnt hcnt
      rw [Option.map_eq_some'] at h
      obtain ⟨⟨v, s4⟩, hv, he⟩ := h
      injection he with e1 e2 e3 e4 e5
      subst e1
      cases e4
      rw [hcnt, decodeValues_length hv]
  · cases h

theorem runChunks_mono {fuel fuel' : Nat} {m : TypeCountMap} {s rest : List Nat}
    {cs : List DecodedChunk} (hle : fuel ≤ fuel')
    (h : runChunks fuel m s = some (cs, rest)) :
    runChunks fuel' m s = some (cs, rest) := by
  induction fuel generalizing fuel' m s cs rest with
  | zero => cases h
  | succ fuel ih =>
    cases fuel' with
    | zero => omega
    | succ fuel'' =>
      unfold runChunks at h ⊢
      simp only [Option.bind_eq_some] at h
      obtain ⟨⟨c, r⟩, hc, h⟩ := h
      rw [hc]
      simp only [Option.some_bind]
      split at h
      · rename_i hend
        rw [if_pos hend]
        exact h
      · rename_i hend
        rw [if_neg hend]
        simp only [Option.bind_eq_some, Option.map_eq_some'] at h
        obtain ⟨⟨d, m'⟩, hd, ⟨cs', rest'⟩, hrec, he⟩ := h
        rw [hd]
        simp only [Option.some_bind]
        rw [ih (by omega) hrec, Option.map_some']
        rw [← he]

theorem readU16le_append {s r : List Nat} {v : Nat} (t : List Nat)
    (h : readU16le s = some (v, r)) :
    readU16le (s ++ t) = some (v, r ++ t) := by
  unfold readU16le at h ⊢
  rw [Option.map_eq_some'] at h
  obtain ⟨⟨a, b⟩, hp, he⟩ := h
  rw [readExact_append t hp, Option.map_some']
  cases he
  rfl

theorem FileHeader.decode_append {s r : List Nat} {hdr : FileHeader}
    (t : List Nat) (h : FileHeader.decode s = some (hdr, r)) :
    FileHeader.decode (s ++ t) = some (hdr, r ++ t) := by
  unfold FileHeader.decode at h ⊢
  simp only [Option.bind_eq_some] at h
  obtain ⟨⟨mg, s1⟩, h1, h⟩ := h
  rw [readExact_append t h1]
  simp only [Option.some_bind] at h ⊢
  split at h
  · rename_i hmg
    rw [if_pos hmg]
    simp only [Option.bind_eq_some] at h
    obtain ⟨⟨v, s2⟩, h2, ⟨tn, s3⟩, h3, h⟩ := h
    rw [readU16le_append t h2]
    simp only [Option.some_bind]
    rw [readU32le_append t h3]
    simp only [Option.some_bind]
    rw [Option.map_eq_some'] at h
    obtain ⟨⟨ti, s4⟩, h4, he⟩ := h
    rw [readU32le_append t h4, Option.map_some']
    cases he
    rfl
  · cases h

/-- The byte layout of a file header, as the spec lays it out. -/
def headerBytes (v t i : Nat) : List Nat :=
  magicBytes ++ (u16le v ++ (u32le t ++ u32le i))

theorem FileHeader.decode_run (v t i : Nat) (rest : List Nat) :
    FileHeader.decode (headerBytes v t i ++ rest) =
      some (⟨v % 65536, t % 4294967296, i % 4294967296⟩, rest) := by
  unfold FileHeader.decode headerBytes
  rw [List.append_assoc, readExact_run _ rfl]
  simp only [Option.some_bind, if_true]
  rw [List.append_assoc, readU16le_run]
  simp only [Option.some_bind]
  rw [List.append_assoc, readU32le_run]
  simp only [Option.some_bind]
  rw [readU32le_run, Option.map_some']

/-- Index-wise description of a zip through `getD` (the default is
irrelevant in bounds). -/
theorem zipWith_getD_of_lt {α β γ : Type} (f : α → β → γ) (d1 : α) (d2 : β)
    (d3 : γ) :
    ∀ (l1 : List α) (l2 : List β) (i : Nat), i < l1.length → i < l2.length →
      (List.zipWith f l1 l2).getD i d3 = f (l1.getD i d1) (l2.getD i d2)
  | [], _, i, h1, _ => absurd h1 (by simp)
  | _ :: _, [], i, _, h2 => absurd h2 (by simp)
  | a :: l1, b :: l2, 0, _, _ => rfl
  | a :: l1, b :: l2, i + 1, h1, h2 =>
    zipWith_getD_of_lt f d1 d2 d3 l1 l2 i (Nat.lt_of_succ_lt_succ h1)
      (Nat.lt_of_succ_lt_succ h2)

end RbxDom

namespace RbxDom

/-! ## Concrete byte-stream builders used by witnesses -/

/-- A chunk frame holding `payload` stored uncompressed. -/
def chunkBytes (name payload : List Nat) : List Nat :=
  name ++ u32le 0 ++ u32le payload.length ++ payload

/-- A length-prefixed string. -/
def strBytes (l : List Nat) : List Nat := u32le l.length ++ l

/-! ## Claims -/

/-- C1: a PROP chunk whose type-id was not registered by any earlier INST
chunk decodes without error: the property decodes with no values, and the
chunk's payload after the type-id, property name and tag byte is preserved
as opaque bytes in the decoded chunk. -/
theorem claim_C1 (data s1 s2 s3 pname : List Nat) (m : TypeCountMap)
    (tid tag : Nat)
    (h1 : readU32le data = some (tid, s1))
    (h2 : readString s1 = some (pname, s2))
    (h3 : readU8 s2 = some (tag, s3))
    (hm : TypeCountMap.get tid m = none) :
    decodePropChunk data m = some (.prop tid pname
      (match Ty.fromTag tag with
       | some t => DecodedPropType.known t
       | none => DecodedPropType.unknown tag) none s3) := by
  cases hf : Ty.fromTag tag with
  | some t => simp only [decodePropChunk, h1, h2, h3, Option.some_bind, hf, hm]
  | none => simp only [decodePropChunk, h1, h2, h3, Option.some_bind, hf]

theorem claim_C1_witness :
    decodePropChunk [7, 0, 0, 0, 1, 0, 0, 0, 78, 1, 9, 9] [] =
      some (.prop 7 [78] (.known .string) none [9, 9]) ∧
    DecodedModel.fromBytes (headerBytes 0 1 2
        ++ (chunkBytes propName [7, 0, 0, 0, 1, 0, 0, 0, 78, 1, 9, 9]
          ++ chunkBytes endNameBytes [])) =
      some { num_types := 1, num_instances := 2,
             chunks := [.prop 7 [78] (.known .string) none [9, 9],
               .endChunk] } :=
  ⟨claim_C1 [7, 0, 0, 0, 1, 0, 0, 0, 78, 1, 9, 9] [1, 0, 0, 0, 78, 1, 9, 9]
      [1, 9, 9] [9, 9] [78] [] 7 1 (by decide) (by decide) (by decide)
      (by decide),
    by decide⟩

/-- C2: a PROP chunk whose one-byte value-type tag is unknown decodes to
zero values, the tag is reported as an unknown-type marker carrying the raw
tag byte, the rest of the payload is preserved as opaque bytes, and the
chunk does not fail. -/
theorem claim_C2 (data s1 s2 s3 pname : List Nat) (m : TypeCountMap)
    (tid tag : Nat)
    (h1 : readU32le data = some (tid, s1))
    (h2 : readString s1 = some (pname, s2))
    (h3 : readU8 s2 = some (tag, s3))
    (hf : Ty.fromTag tag = none) :
    decodePropChunk data m = some (.prop tid pname (.unknown tag) none s3) := by
  simp only [decodePropChunk, h1, h2, h3, Option.some_bind, hf]

theorem claim_C2_witness :
    decodePropChunk [0, 0, 0, 0, 1, 0, 0, 0, 78, 0xFF, 5, 6] [(0, 3)] =
      some (.prop 0 [78] (.unknown 0xFF) none [5, 6]) ∧
    DecodedModel.fromBytes (headerBytes 0 1 1
        ++ (chunkBytes propName [0, 0, 0, 0, 1, 0, 0, 0, 78, 0xFF, 5, 6]
          ++ chunkBytes endNameBytes [])) =
      some { num_types := 1, num_instances := 1,
             chunks := [.prop 0 [78] (.unknown 0xFF) none [5, 6],
               .endChunk] } :=
  ⟨claim_C2 [0, 0, 0, 0, 1, 0, 0, 0, 78, 0xFF, 5, 6] [1, 0, 0, 0, 78, 0xFF, 5, 6]
      [0xFF, 5, 6] [5, 6] [78] [(0, 3)] 0 0xFF (by decide) (by decide)
      (by decide) (by decide),
    by decide⟩

/-- C3 (counterexample): a chunk with the unknown name bytes
`FF 41 41 41` is retained, but under the lossy UTF-8 decoding of its name
(`EF BF BD 41 41 41`), not under its literal 4-byte name — the payload is
preserved verbatim, the name is not. -/
theorem claim_C3_counterexample :
    DecodedModel.fromBytes (headerBytes 0 1 2
        ++ (chunkBytes [0xFF, 0x41, 0x41, 0x41] [9, 8, 7]
          ++ chunkBytes endNameBytes [])) =
      some { num_types := 1, num_instances := 2,
             chunks := [.unknown [0xEF, 0xBF, 0xBD, 0x41, 0x41, 0x41] [9, 8, 7],
               .endChunk] } ∧
    [0xEF, 0xBF, 0xBD, 0x41, 0x41, 0x41] ≠ [0xFF, 0x41, 0x41, 0x41] :=
  ⟨by decide, by decide⟩

/-- C3 (amended): a chunk whose 4-byte name is outside the known set does
not fail decoding; it is retained with its full payload bytes preserved
verbatim, under the lossy UTF-8 decoding of its name — which equals the
literal 4-byte name whenever the name bytes are valid UTF-8. -/
theorem claim_C3 {fuel : Nat} {m : TypeCountMap} {s r rest : List Nat}
    {c : RawChunk} {cs : List DecodedChunk}
    (hc : decodeChunk s = some (c, r))
    (hname : c.name ∉ ([metaName, instName, propName, prntName,
      endNameBytes] : List (List Nat)))
    (hrec : runChunks fuel m r = some (cs, rest)) :
    runChunks (fuel + 1) m s =
      some (.unknown (utf8Lossy c.name) c.data :: cs, rest) ∧
    (isValidUtf8 c.name = true → utf8Lossy c.name = c.name) := by
  simp only [List.mem_cons, List.not_mem_nil, or_false, not_or] at hname
  obtain ⟨hn1, hn2, hn3, hn4, hn5⟩ := hname
  constructor
  · unfold runChunks
    rw [hc]
    simp only [Option.some_bind]
    rw [if_neg hn5]
    unfold dispatchChunk
    rw [if_neg hn1, if_neg hn2, if_neg hn3, if_neg hn4]
    simp only [Option.some_bind]
    rw [hrec, Option.map_some']
  · exact utf8Lossy_of_valid c.name

theorem claim_C3_witness :
    runChunks 2 [] (chunkBytes [0x4A, 0x55, 0x4E, 0x4B] [1, 2, 3]
        ++ chunkBytes endNameBytes []) =
      some (.unknown [0x4A, 0x55, 0x4E, 0x4B] [1, 2, 3] :: [.endChunk], []) ∧
    (isValidUtf8 [0x4A, 0x55, 0x4E, 0x4B] = true →
      utf8Lossy [0x4A, 0x55, 0x4E, 0x4B] = [0x4A, 0x55, 0x4E, 0x4B]) := by
  have h := @claim_C3 1 []
    (chunkBytes [0x4A, 0x55, 0x4E, 0x4B] [1, 2, 3]
      ++ chunkBytes endNameBytes [])
    (chunkBytes endNameBytes []) []
    ⟨[0x4A, 0x55, 0x4E, 0x4B], [1, 2, 3]⟩ [.endChunk]
    (by decide) (by decide) (by decide)
  exact ⟨h.1, h.2⟩

end RbxDom

namespace RbxDom

/-- C4: when two INST chunks declare the same type-id, the later
declaration overwrites the earlier one in the type-id bookkeeping, and a
PROP chunk for that type-id decoded after both declarations decodes
exactly as many values as the most recent declaration's instance count. -/
theorem claim_C4 {d1 d2 dp : List Nat} {m0 m1 m2 : TypeCountMap}
    {tid : Nat} {tn1 tn2 : List Nat} {f1 f2 : Nat} {refs1 refs2 : List Int}
    {rem1 rem2 : List Nat} {pn : List Nat} {pt : DecodedPropType}
    {vs : DecodedValues} {remp : List Nat}
    (h1 : decodeInstChunk d1 m0 = some (.inst tid tn1 f1 refs1 rem1, m1))
    (h2 : decodeInstChunk d2 m1 = some (.inst tid tn2 f2 refs2 rem2, m2))
    (h3 : decodePropChunk dp m2 = some (.prop tid pn pt (some vs) remp)) :
    m2 = TypeCountMap.insert tid refs2.length
        (TypeCountMap.insert tid refs1.length m0) ∧
    TypeCountMap.get tid m2 = some refs2.length ∧
    vs.length = refs2.length := by
  have e1 := decodeInstChunk_inserts h1
  have e2 := decodeInstChunk_inserts h2
  have hget : TypeCountMap.get tid m2 = some refs2.length := by
    rw [e2]
    exact TypeCountMap.get_insert_self ..
  refine ⟨by rw [e2, e1], hget, ?_⟩
  have := decodePropChunk_values_length h3
  rw [hget] at this
  exact (Option.some.injEq .. ▸ this.symm)

theorem claim_C4_witness :
    TypeCountMap.get 0
        (TypeCountMap.insert 0 2 (TypeCountMap.insert 0 1 [])) = some 2 ∧
    (DecodedValues.bool [true, false]).length = ([0, 1] : List Int).length := by
  have h := @claim_C4
    [0, 0, 0, 0, 1, 0, 0, 0, 80, 0, 1, 0, 0, 0, 0, 0, 0, 2]
    [0, 0, 0, 0, 1, 0, 0, 0, 80, 0, 2, 0, 0, 0, 0, 0, 0, 0, 0, 0, 0, 2]
    [0, 0, 0, 0, 1, 0, 0, 0, 78, 2, 1, 0]
    [] [(0, 1)] [(0, 2), (0, 1)]
    0 [80] [80] 0 0
    [1] [0, 1] [] []
    [78] (.known .bool) (.bool [true, false])
    [] (by decide) (by decide) (by decide)
  exact ⟨h.2.1, h.2.2⟩

/-- C5: the chunk scan stops at the first END chunk: the terminator is the
final decoded chunk and occurs exactly once, the unread part of the source
is a suffix, and appending arbitrary bytes after the consumed part leaves
the decoded chunks unchanged (the source need not be exhausted, and no
byte after the terminator chunk is consumed). -/
theorem claim_C5 {fuel : Nat} {m : TypeCountMap} {s rest : List Nat}
    {cs : List DecodedChunk}
    (h : runChunks fuel m s = some (cs, rest)) :
    cs ≠ [] ∧ cs.getLast? = some .endChunk ∧
    cs.count DecodedChunk.endChunk = 1 ∧ rest <:+ s ∧
    ∀ t, runChunks fuel m (s ++ t) = some (cs, rest ++ t) := by
  obtain ⟨hne, hlast, hcount, hsuffix⟩ := runChunks_structure h
  exact ⟨hne, hlast, hcount, hsuffix, fun t => runChunks_append t h⟩

theorem claim_C5_witness :
    ([DecodedChunk.endChunk] : List DecodedChunk) ≠ [] ∧
    ([DecodedChunk.endChunk].getLast? = some .endChunk) ∧
    [DecodedChunk.endChunk].count DecodedChunk.endChunk = 1 ∧
    ([7, 7] : List Nat) <:+ chunkBytes endNameBytes [] ++ [7, 7] ∧
    runChunks 1 [] ((chunkBytes endNameBytes [] ++ [7, 7]) ++ [9]) =
      some ([.endChunk], [7, 7] ++ [9]) := by
  have h := @claim_C5 1 []
    (chunkBytes endNameBytes [] ++ [7, 7]) [7, 7]
    [.endChunk] (by decide)
  exact ⟨h.1, h.2.1, h.2.2.1, h.2.2.2.1, h.2.2.2.2 [9]⟩

/-- C7: a string value is a length-prefixed run of raw bytes; decoding
never fails on non-UTF-8 content, records whether the bytes were valid
UTF-8 text (text variant exactly for valid UTF-8), and preserves the
original bytes exactly in either case. -/
theorem claim_C7 (b r : List Nat) (hb : b.length < 4294967296) :
    readBinaryString (u32le b.length ++ (b ++ r)) = some (b, r) ∧
    decodeValues (u32le b.length ++ (b ++ r)) 1 .string =
      some (some (.string [RobloxString.fromBytes b]), r) ∧
    (RobloxString.fromBytes b).bytes = b ∧
    ((RobloxString.fromBytes b).isText = isValidUtf8 b) := by
  have hread : readBinaryString (u32le b.length ++ (b ++ r)) = some (b, r) := by
    unfold readBinaryString
    rw [readU32le_run]
    simp only [Option.some_bind]
    rw [Nat.mod_eq_of_lt hb]
    exact readExact_run r rfl
  refine ⟨hread, ?_, ?_, ?_⟩
  · simp only [decodeValues, readStringsLoop, hread, Option.some_bind,
      Option.map_some']
  · unfold RobloxString.fromBytes
    split <;> rfl
  · unfold RobloxString.fromBytes
    split <;> simp_all [RobloxString.isText]

theorem claim_C7_witness :
    readBinaryString (u32le 2 ++ ([0xFF, 0x41] ++ [9])) =
      some ([0xFF, 0x41], [9]) ∧
    decodeValues (u32le 2 ++ ([0xFF, 0x41] ++ [9])) 1 .string =
      some (some (.string [RobloxString.fromBytes [0xFF, 0x41]]), [9]) ∧
    (RobloxString.fromBytes [0xFF, 0x41]).bytes = [0xFF, 0x41] ∧
    ((RobloxString.fromBytes [0xFF, 0x41]).isText = isValidUtf8 [0xFF, 0x41]) :=
  claim_C7 [0xFF, 0x41] [9] (by decide)

end RbxDom

namespace RbxDom

/-- C6: compound geometric types decode each scalar lane independently as a
full array of length N and zip the lanes index-by-index, in fixed lane
order: UDim reads the scale lane then the offset lane and pairs them;
UDim2 reads scale_x, scale_y, offset_x, offset_y and builds element `i` as
UDim2 (UDim scale_x[i] offset_x[i]) (UDim scale_y[i] offset_y[i]); Color3
reads the r, g, b lanes in that order; Vector2 reads the x lane then the
y lane. -/
theorem claim_C6 (cnt : Nat)
    {sU s1U s2U : List Nat} {scaleL : List Nat} {offsetL : List Int}
    (hU1 : readInterleavedF32Array cnt sU = some (scaleL, s1U))
    (hU2 : readInterleavedI32Array cnt s1U = some (offsetL, s2U))
    {sV sV1 sV2 sV3 sV4 : List Nat} {sx sy : List Nat} {ox oy : List Int}
    (hV1 : readInterleavedF32Array cnt sV = some (sx, sV1))
    (hV2 : readInterleavedF32Array cnt sV1 = some (sy, sV2))
    (hV3 : readInterleavedI32Array cnt sV2 = some (ox, sV3))
    (hV4 : readInterleavedI32Array cnt sV3 = some (oy, sV4))
    {sC sC1 sC2 sC3 : List Nat} {rl gl bl : List Nat}
    (hC1 : readInterleavedF32Array cnt sC = some (rl, sC1))
    (hC2 : readInterleavedF32Array cnt sC1 = some (gl, sC2))
    (hC3 : readInterleavedF32Array cnt sC2 = some (bl, sC3))
    {sW sW1 sW2 : List Nat} {xl yl : List Nat}
    (hW1 : readInterleavedF32Array cnt sW = some (xl, sW1))
    (hW2 : readInterleavedF32Array cnt sW1 = some (yl, sW2)) :
    (decodeValues sU cnt .uDim =
        some (some (.uDim (List.zipWith UDim.mk scaleL offsetL)), s2U) ∧
      scaleL.length = cnt ∧ offsetL.length = cnt ∧
      (List.zipWith UDim.mk scaleL offsetL).length = cnt ∧
      ∀ i, i < cnt → (List.zipWith UDim.mk scaleL offsetL).get? i =
        some (UDim.mk (scaleL.getD i 0) (offsetL.getD i 0))) ∧
    (decodeValues sV cnt .uDim2 =
        some (some (.uDim2 (List.zipWith UDim2.mk
          (List.zipWith UDim.mk sx ox) (List.zipWith UDim.mk sy oy))), sV4) ∧
      sx.length = cnt ∧ sy.length = cnt ∧ ox.length = cnt ∧ oy.length = cnt ∧
      (List.zipWith UDim2.mk (List.zipWith UDim.mk sx ox)
        (List.zipWith UDim.mk sy oy)).length = cnt ∧
      ∀ i, i < cnt → (List.zipWith UDim2.mk (List.zipWith UDim.mk sx ox)
          (List.zipWith UDim.mk sy oy)).get? i =
        some (UDim2.mk (UDim.mk (sx.getD i 0) (ox.getD i 0))
          (UDim.mk (sy.getD i 0) (oy.getD i 0)))) ∧
    (decodeValues sC cnt .color3 =
        some (some (.color3 (List.zipWith (fun rg bv => Color3.mk rg.1 rg.2 bv)
          (List.zipWith Prod.mk rl gl) bl)), sC3) ∧
      rl.length = cnt ∧ gl.length = cnt ∧ bl.length = cnt ∧
      (List.zipWith (fun rg bv => Color3.mk rg.1 rg.2 bv)
        (List.zipWith Prod.mk rl gl) bl).length = cnt ∧
      ∀ i, i < cnt → (List.zipWith (fun rg bv => Color3.mk rg.1 rg.2 bv)
          (List.zipWith Prod.mk rl gl) bl).get? i =
        some (Color3.mk (rl.getD i 0) (gl.getD i 0) (bl.getD i 0))) ∧
    (decodeValues sW cnt .vector2 = some (some (.vector2 xl yl), sW2) ∧
      xl.length = cnt ∧ yl.length = cnt) := by
  have lsc := readInterleavedF32Array_length hU1
  have lof := readInterleavedI32Array_length hU2
  have lsx := readInterleavedF32Array_length hV1
  have lsy := readInterleavedF32Array_length hV2
  have lox := readInterleavedI32Array_length hV3
  have loy := readInterleavedI32Array_length hV4
  have lr := readInterleavedF32Array_length hC1
  have lg := readInterleavedF32Array_length hC2
  have lb := readInterleavedF32Array_length hC3
  have lx := readInterleavedF32Array_length hW1
  have ly := readInterleavedF32Array_length hW2
  refine ⟨⟨?_, lsc, lof, ?_, ?_⟩, ⟨?_, lsx, lsy, lox, loy, ?_, ?_⟩,
    ⟨?_, lr, lg, lb, ?_, ?_⟩, ⟨?_, lx, ly⟩⟩
  · simp only [decodeValues, hU1, hU2, Option.some_bind, Option.map_some']
  · simp [List.length_zipWith, lsc, lof]
  · intro i hi
    exact zipWith_get?_of_lt UDim.mk 0 0 scaleL offsetL i (by omega) (by omega)
  · simp only [decodeValues, hV1, hV2, hV3, hV4, Option.some_bind,
      Option.map_some']
  · simp [List.length_zipWith, lsx, lsy, lox, loy]
  · intro i hi
    rw [zipWith_get?_of_lt UDim2.mk (UDim.mk 0 0) (UDim.mk 0 0)
      (List.zipWith UDim.mk sx ox) (List.zipWith UDim.mk sy oy) i
      (by simp [List.length_zipWith]; omega) (by simp [List.length_zipWith]; omega)]
    rw [zipWith_getD_of_lt UDim.mk 0 0 (UDim.mk 0 0) sx ox i (by omega) (by omega)]
    rw [zipWith_getD_of_lt UDim.mk 0 0 (UDim.mk 0 0) sy oy i (by omega) (by omega)]
  · simp only [decodeValues, hC1, hC2, hC3, Option.some_bind, Option.map_some']
  · simp [List.length_zipWith, lr, lg, lb]
  · intro i hi
    rw [zipWith_get?_of_lt (fun rg bv => Color3.mk rg.1 rg.2 bv) (0, 0) 0
      (List.zipWith Prod.mk rl gl) bl i
      (by simp [List.length_zipWith]; omega) (by omega)]
    rw [zipWith_getD_of_lt Prod.mk 0 0 (0, 0) rl gl i (by omega) (by omega)]
  · simp only [decodeValues, hW1, hW2, Option.some_bind, Option.map_some']

theorem claim_C6_witness :
    decodeValues [0, 0, 0, 1, 0, 0, 0, 6] 1 .uDim =
      some (some (.uDim [UDim.mk 1 3]), []) ∧
    (List.zipWith UDim.mk [1] ([3] : List Int)).get? 0 =
      some (UDim.mk 1 3) ∧
    decodeValues [0, 0, 0, 1, 0, 0, 0, 2, 0, 0, 0, 6, 0, 0, 0, 8] 1 .uDim2 =
      some (some (.uDim2 [UDim2.mk (UDim.mk 1 3) (UDim.mk 2 4)]), []) ∧
    decodeValues [0, 0, 0, 1, 0, 0, 0, 2, 0, 0, 0, 3] 1 .color3 =
      some (some (.color3 [Color3.mk 1 2 3]), []) ∧
    decodeValues [0, 0, 0, 1, 0, 0, 0, 2] 1 .vector2 =
      some (some (.vector2 [1] [2]), []) := by
  have h := @claim_C6 1
    [0, 0, 0, 1, 0, 0, 0, 6] [0, 0, 0, 6] []
    [1] [3] (by decide) (by decide)
    [0, 0, 0, 1, 0, 0, 0, 2, 0, 0, 0, 6, 0, 0, 0, 8]
    [0, 0, 0, 2, 0, 0, 0, 6, 0, 0, 0, 8]
    [0, 0, 0, 6, 0, 0, 0, 8] [0, 0, 0, 8] []
    [1] [2] [3] [4]
    (by decide) (by decide) (by decide) (by decide)
    [0, 0, 0, 1, 0, 0, 0, 2, 0, 0, 0, 3]
    [0, 0, 0, 2, 0, 0, 0, 3] [0, 0, 0, 3] []
    [1] [2] [3] (by decide) (by decide) (by decide)
    [0, 0, 0, 1, 0, 0, 0, 2] [0, 0, 0, 2] []
    [1] [2] (by decide) (by decide)
  exact ⟨h.1.1, h.1.2.2.2.2 0 (by decide), h.2.1.1, h.2.2.1.1, h.2.2.2.1⟩

/-- C8: every chunk decoder retains the undecoded tail of its payload
verbatim as a suffix of that payload, and a completed scan retains one
decoded chunk per framed chunk (it agrees with the pure framing count,
ending at the same position). -/
theorem claim_C8 {pm pi pp pq : List Nat} {mi mi' mp : TypeCountMap}
    {es : List (List Nat × List Nat)} {remm : List Nat}
    {tid : Nat} {tn : List Nat} {fmt : Nat} {refs : List Int} {remi : List Nat}
    {ptid : Nat} {ppn : List Nat} {ppt : DecodedPropType}
    {pvals : Option DecodedValues} {remp : List Nat}
    {ver : Nat} {links : List (Int × Int)} {remq : List Nat}
    {fuel : Nat} {mr : TypeCountMap} {sr rest : List Nat}
    {cs : List DecodedChunk}
    (hm : decodeMetaChunk pm = some (.meta es remm))
    (hi : decodeInstChunk pi mi = some (.inst tid tn fmt refs remi, mi'))
    (hp : decodePropChunk pp mp = some (.prop ptid ppn ppt pvals remp))
    (hq : decodePrntChunk pq = some (.prnt ver links remq))
    (hr : runChunks fuel mr sr = some (cs, rest)) :
    remm <:+ pm ∧ remi <:+ pi ∧ remp <:+ pp ∧ remq <:+ pq ∧
    countRaw fuel sr = some (cs.length, rest) := by
  refine ⟨?_, ?_, ?_, ?_, runChunks_countRaw hr⟩
  · obtain ⟨es', rem', he, hs⟩ := decodeMetaChunk_shape hm
    injection he with e1 e2
    subst e2
    exact hs
  · obtain ⟨a, b, c, d, rem', he, hs, _⟩ := decodeInstChunk_shape hi
    injection he with e1 e2 e3 e4 e5
    subst e5
    exact hs
  · obtain ⟨a, b, c, d, rem', he, hs⟩ := decodePropChunk_shape hp
    injection he with e1 e2 e3 e4 e5
    subst e5
    exact hs
  · obtain ⟨a, b, rem', he, hs⟩ := decodePrntChunk_shape hq
    injection he with e1 e2 e3
    subst e3
    exact hs

theorem claim_C8_witness :
    ([3] : List Nat) <:+ [1, 0, 0, 0, 1, 0, 0, 0, 75, 1, 0, 0, 0, 86, 3] ∧
    ([5] : List Nat) <:+
      [0, 0, 0, 0, 1, 0, 0, 0, 80, 0, 1, 0, 0, 0, 0, 0, 0, 2, 5] ∧
    ([9] : List Nat) <:+ [0, 0, 0, 0, 1, 0, 0, 0, 78, 2, 1, 9] ∧
    ([7] : List Nat) <:+ [0, 1, 0, 0, 0, 0, 0, 0, 2, 0, 0, 0, 0, 7] ∧
    countRaw 2 (chunkBytes [0x41, 0x41, 0x41, 0x41] [1]
        ++ chunkBytes endNameBytes []) = some (2, []) := by
  have h := @claim_C8
    [1, 0, 0, 0, 1, 0, 0, 0, 75, 1, 0, 0, 0, 86, 3]
    [0, 0, 0, 0, 1, 0, 0, 0, 80, 0, 1, 0, 0, 0, 0, 0, 0, 2, 5]
    [0, 0, 0, 0, 1, 0, 0, 0, 78, 2, 1, 9]
    [0, 1, 0, 0, 0, 0, 0, 0, 2, 0, 0, 0, 0, 7]
    [] [(0, 1)] [(0, 1)]
    [([75], [86])] [3]
    0 [80] 0 [1] [5]
    0 [78] (.known .bool)
    (some (.bool [true])) [9]
    0 [(1, 0)] [7]
    2 []
    (chunkBytes [0x41, 0x41, 0x41, 0x41] [1]
      ++ chunkBytes endNameBytes [])
    [] [.unknown [0x41, 0x41, 0x41, 0x41] [1], .endChunk]
    (by decide) (by decide) (by decide) (by decide) (by decide)
  exact ⟨h.1, h.2.1, h.2.2.1, h.2.2.2.1, h.2.2.2.2⟩

/-- C9: the header's declared counts are advisory: two streams identical
except for those two fields decode to the identical chunk sequence, and
the counts are merely copied into the decoded model's header fields. -/
theorem claim_C9 (v t1 i1 t2 i2 : Nat) (rest : List Nat)
    (ht1 : t1 < 4294967296) (hi1 : i1 < 4294967296)
    (ht2 : t2 < 4294967296) (hi2 : i2 < 4294967296) :
    Option.map DecodedModel.chunks
        (DecodedModel.fromBytes (headerBytes v t1 i1 ++ rest)) =
      Option.map DecodedModel.chunks
        (DecodedModel.fromBytes (headerBytes v t2 i2 ++ rest)) ∧
    (∀ mdl, DecodedModel.fromBytes (headerBytes v t1 i1 ++ rest) = some mdl →
      mdl.num_types = t1 ∧ mdl.num_instances = i1) := by
  unfold DecodedModel.fromBytes
  rw [FileHeader.decode_run, FileHeader.decode_run]
  simp only [Option.some_bind]
  constructor
  · cases hrc : runChunks (rest.length + 1) [] rest with
    | none => rfl
    | some r => rfl
  · intro mdl hmdl
    rw [Option.map_eq_some'] at hmdl
    obtain ⟨r, hr, he⟩ := hmdl
    rw [← he]
    exact ⟨Nat.mod_eq_of_lt ht1, Nat.mod_eq_of_lt hi1⟩

theorem claim_C9_witness :
    Option.map DecodedModel.chunks
        (DecodedModel.fromBytes
          (headerBytes 0 1 2 ++ chunkBytes endNameBytes [])) =
      Option.map DecodedModel.chunks
        (DecodedModel.fromBytes
          (headerBytes 0 3 4 ++ chunkBytes endNameBytes [])) ∧
    (DecodedModel.mk 1 2 [DecodedChunk.endChunk]).num_types = 1 ∧
    (DecodedModel.mk 1 2 [DecodedChunk.endChunk]).num_instances = 2 := by
  have h := claim_C9 0 1 2 3 4 (chunkBytes endNameBytes [])
    (by decide) (by decide) (by decide) (by decide)
  exact ⟨h.1, h.2 (DecodedModel.mk 1 2 [DecodedChunk.endChunk]) (by decide)⟩

end RbxDom

namespace RbxDom.Defaults

/-!
Embedding of `generate_reflection/src/defaults_place.rs`,
`apply_defaults_from_fixture_place` and `find_descriptors`: checking each
decoded property of a fixture place against the reflection database's
declared serialization behavior.  Log calls (`log::error!`, `log::warn!`,
`log::info!`) become `DefaultsLog` values; the one `panic!` becomes the
`Except.error` case.  The breadth-first traversal order of the tree is
taken as the input instance list.
-/

/-- `PropertySerialization` of the reflection database: how a canonical
property is declared to serialize (the enumeration is open-ended; the
catch-all arm of the source is `otherSerialization`). -/
inductive PropertySerialization
  | serializes
  | doesNotSerialize
  | serializesAs (name : String)
  | otherSerialization
  deriving DecidableEq

/-- `PropertyKind`: canonical, an alias of another property, or an
unrecognized kind (the catch-all arm of the source). -/
inductive PropertyKind
  | canonical (serialization : PropertySerialization)
  | aliasOf (target : String)
  | otherKind
  deriving DecidableEq

structure PropertyDescriptor where
  name : String
  kind : PropertyKind
  deriving DecidableEq

structure ClassDescriptor where
  name : String
  superclass : Option String
  properties : List (String × PropertyDescriptor)
  deriving DecidableEq

/-- The class table of the reflection database. -/
abbrev ReflectionDatabase := List (String × ClassDescriptor)

def dbGet (db : ReflectionDatabase) (k : String) : Option ClassDescriptor :=
  (List.find? (fun p => p.1 == k) db).map (fun p => p.2)

def propGet (ps : List (String × PropertyDescriptor)) (k : String) :
    Option PropertyDescriptor :=
  (List.find? (fun p => p.1 == k) ps).map (fun p => p.2)

/-- The value types the defaults collector distinguishes: `Ref` and
`SharedString` are skipped for default recording; everything else is
recorded. -/
inductive RbxValueType
  | ref
  | sharedString
  | otherValue
  deriving DecidableEq

/-- The diagnostics the defaults collector emits. -/
inductive DefaultsLog
  | propNotInDump (className propName : String)
  | wrongSerializedName (className canonicalName actualName : String)
  | shouldNotSerialize (className propName canonicalName : String)
  | serializesAsMismatch (className canonicalName expectedName actualName : String)
  | unknownSerialization (className canonicalName : String)
  | unknownPropKind
  | classNotInDump (className : String)
  deriving DecidableEq

/-- `find_descriptors`: walk the superclass chain for a property
descriptor, resolving one alias step to its canonical target.  A missing
class or alias target is a fatal error (an `unwrap` in the source); `fuel`
bounds the superclass walk, which the source leaves unbounded. -/
def findDescriptors : Nat → ReflectionDatabase → String → String →
    Except String (List DefaultsLog × Option PropertyDescriptor)
  | 0, _, _, _ => .error "superclass chain exhausted"
  | fuel + 1, db, className, propName =>
    match dbGet db className with
    | none => .error "class missing from database"
    | some cls =>
      match propGet cls.properties propName with
      | some prop =>
        match prop.kind with
        | .canonical _ => .ok ([], some prop)
        | .aliasOf target =>
          match propGet cls.properties target with
          | none => .error "alias target missing"
          | some aliased => .ok ([], some aliased)
        | .otherKind => .ok ([.unknownPropKind], none)
      | none =>
        match cls.superclass with
        | none => .ok ([], none)
        | some sup => findDescriptors fuel db sup propName

/-- The serialization-behavior check of one decoded property against its
canonical descriptor: every mismatch is logged with the class and property
identifiers and is never an error; the only error is a non-canonical
descriptor reaching this point (the `panic!` of the source). -/
def checkPropertySerialization (className propName : String)
    (canonical : PropertyDescriptor) : Except String (List DefaultsLog) :=
  match canonical.kind with
  | .canonical ser =>
    match ser with
    | .serializes =>
      .ok (if canonical.name ≠ propName then
        [.wrongSerializedName className canonical.name propName] else [])
    | .doesNotSerialize =>
      .ok [.shouldNotSerialize className propName canonical.name]
    | .serializesAs sn =>
      .ok (if sn ≠ propName then
        [.serializesAsMismatch className canonical.name sn propName] else [])
    | .otherSerialization =>
      .ok [.unknownSerialization className canonical.name]
  | _ => .error "find_descriptors must not return a non-canonical descriptor"

/-- One iteration of the property loop: find descriptors (a missing pair
is logged and skipped), check serialization behavior, then record the
default value under the canonical name unless the value type is `Ref` or
`SharedString` or the class is missing from the database (logged).
Returns the logs and the (class, canonical name) pairs recorded. -/
def processProperty (fuel : Nat) (db : ReflectionDatabase)
    (className propName : String) (valueType : RbxValueType) :
    Except String (List DefaultsLog × List (String × String)) :=
  match findDescriptors fuel db className propName with
  | .error e => .error e
  | .ok (logs, none) => .ok (logs ++ [.propNotInDump className propName], [])
  | .ok (logs, some canonical) =>
    match checkPropertySerialization className propName canonical with
    | .error e => .error e
    | .ok logs2 =>
      match valueType with
      | .ref => .ok (logs ++ logs2, [])
      | .sharedString => .ok (logs ++ logs2, [])
      | .otherValue =>
        match dbGet db className with
        | none => .ok (logs ++ logs2 ++ [.classNotInDump className], [])
        | some _ => .ok (logs ++ logs2, [(className, canonical.name)])

/-- The property loop of one instance. -/
def applyProps (fuel : Nat) (db : ReflectionDatabase) (className : String) :
    List (String × RbxValueType) →
    Except String (List DefaultsLog × List (String × String))
  | [] => .ok ([], [])
  | (p, v) :: rest =>
    match processProperty fuel db className p v with
    | .error e => .error e
    | .ok (l1, d1) =>
      match applyProps fuel db className rest with
      | .error e => .error e
      | .ok (l2, d2) => .ok (l1 ++ l2, d1 ++ d2)

/-- The instance loop: the first instance of each class (in traversal
order) is processed, later ones are skipped via the visited set. -/
def applyInstances (fuel : Nat) (db : ReflectionDatabase) :
    List String → List (String × List (String × RbxValueType)) →
    Except String (List DefaultsLog × List (String × String))
  | _, [] => .ok ([], [])
  | found, (cn, props) :: rest =>
    if cn ∈ found then applyInstances fuel db found rest
    else
      match applyProps fuel db cn props with
      | .error e => .error e
      | .ok (l1, d1) =>
        match applyInstances fuel db (cn :: found) rest with
        | .error e => .error e
        | .ok (l2, d2) => .ok (l1 ++ l2, d1 ++ d2)

instance {ε α : Type} [DecidableEq ε] [DecidableEq α] :
    DecidableEq (Except ε α) := fun
  | .error e, .error f =>
    if h : e = f then .isTrue (congrArg Except.error h)
    else .isFalse (fun hc => h (Except.error.inj hc))
  | .error _, .ok _ => .isFalse (fun hc => Except.noConfusion hc)
  | .ok _, .error _ => .isFalse (fun hc => Except.noConfusion hc)
  | .ok a, .ok b =>
    if h : a = b then .isTrue (congrArg Except.ok h)
    else .isFalse (fun hc => h (Except.ok.inj hc))

theorem applyProps_append {fuel : Nat} {db : ReflectionDatabase}
    {cn : String} {xs ys : List (String × RbxValueType)}
    {lx ly : List DefaultsLog} {dx dy : List (String × String)}
    (hx : applyProps fuel db cn xs = .ok (lx, dx))
    (hy : applyProps fuel db cn ys = .ok (ly, dy)) :
    applyProps fuel db cn (xs ++ ys) = .ok (lx ++ ly, dx ++ dy) := by
  induction xs generalizing lx dx with
  | nil =>
    cases hx
    simpa using hy
  | cons head tail ih =>
    obtain ⟨p, v⟩ := head
    unfold applyProps at hx
    split at hx
    · cases hx
    · rename_i l1d1 hproc
      split at hx
      · cases hx
      · rename_i l2d2 htail
        cases hx
        rw [List.cons_append]
        unfold applyProps
        rw [hproc]
        rw [ih htail]
        simp [List.append_assoc]

end RbxDom.Defaults

namespace RbxDom.Defaults

/-- C10: when a decoded property's name disagrees with the reflection
table's declared serialization behavior (expected to serialize under its
canonical name, declared not to serialize, or declared to serialize under
a different name), the mismatch is logged as a diagnostic identifying the
class and property, the check never fails on a canonical descriptor, and
processing continues to the remaining properties and instances. -/
theorem claim_C10 (cn pn sn : String) (d : PropertyDescriptor)
    (fuel : Nat) (db : ReflectionDatabase)
    {xs ys : List (String × RbxValueType)}
    {lx ly : List DefaultsLog} {dx dy : List (String × String)}
    (hx : applyProps fuel db cn xs = .ok (lx, dx))
    (hy : applyProps fuel db cn ys = .ok (ly, dy))
    {cn0 : String} {found : List String}
    {props : List (String × RbxValueType)}
    {insts : List (String × List (String × RbxValueType))}
    {lp lr : List DefaultsLog} {dp dr : List (String × String)}
    (hnf : cn0 ∉ found)
    (hp : applyProps fuel db cn0 props = .ok (lp, dp))
    (hr : applyInstances fuel db (cn0 :: found) insts = .ok (lr, dr)) :
    (∀ ser, d.kind = .canonical ser →
      ∃ logs, checkPropertySerialization cn pn d = .ok logs) ∧
    (d.kind = .canonical .serializes → d.name ≠ pn →
      checkPropertySerialization cn pn d =
        .ok [.wrongSerializedName cn d.name pn]) ∧
    (d.kind = .canonical .doesNotSerialize →
      checkPropertySerialization cn pn d =
        .ok [.shouldNotSerialize cn pn d.name]) ∧
    (d.kind = .canonical (.serializesAs sn) → sn ≠ pn →
      checkPropertySerialization cn pn d =
        .ok [.serializesAsMismatch cn d.name sn pn]) ∧
    applyProps fuel db cn (xs ++ ys) = .ok (lx ++ ly, dx ++ dy) ∧
    applyInstances fuel db found ((cn0, props) :: insts) =
      .ok (lp ++ lr, dp ++ dr) := by
  refine ⟨?_, ?_, ?_, ?_, applyProps_append hx hy, ?_⟩
  · intro ser hser
    unfold checkPropertySerialization
    rw [hser]
    cases ser with
    | serializes => exact ⟨_, rfl⟩
    | doesNotSerialize => exact ⟨_, rfl⟩
    | serializesAs s0 => exact ⟨_, rfl⟩
    | otherSerialization => exact ⟨_, rfl⟩
  · intro hser hne
    unfold checkPropertySerialization
    rw [hser]
    simp only [if_pos hne]
  · intro hser
    unfold checkPropertySerialization
    rw [hser]
  · intro hser hne
    unfold checkPropertySerialization
    rw [hser]
    simp only [if_pos hne]
  · unfold applyInstances
    rw [if_neg hnf, hp, hr]

theorem claim_C10_witness :
    (∃ logs, checkPropertySerialization "Part" "Color"
      ⟨"Color", .canonical (.serializesAs "Color3uint8")⟩ = .ok logs) ∧
    checkPropertySerialization "Part" "Color"
        ⟨"Color", .canonical (.serializesAs "Color3uint8")⟩ =
      .ok [.serializesAsMismatch "Part" "Color" "Color3uint8" "Color"] ∧
    applyProps 2 [("Part", ⟨"Part", none,
        [("Color", ⟨"Color", .canonical (.serializesAs "Color3uint8")⟩)]⟩)]
        "Part" ([("Color", .otherValue)] ++ [("Color", .ref)]) =
      .ok ([.serializesAsMismatch "Part" "Color" "Color3uint8" "Color",
            .serializesAsMismatch "Part" "Color" "Color3uint8" "Color"],
           [("Part", "Color")]) ∧
    applyInstances 2 [("Part", ⟨"Part", none,
        [("Color", ⟨"Color", .canonical (.serializesAs "Color3uint8")⟩)]⟩)]
        [] [("Part", [("Color", .otherValue)])] =
      .ok ([.serializesAsMismatch "Part" "Color" "Color3uint8" "Color"],
           [("Part", "Color")]) := by
  have h := @claim_C10 "Part" "Color" "Color3uint8"
    ⟨"Color", .canonical (.serializesAs "Color3uint8")⟩ 2
    [("Part", ⟨"Part", none,
      [("Color", ⟨"Color", .canonical (.serializesAs "Color3uint8")⟩)]⟩)]
    [("Color", .otherValue)] [("Color", .ref)]
    [.serializesAsMismatch "Part" "Color" "Color3uint8" "Color"]
    [.serializesAsMismatch "Part" "Color" "Color3uint8" "Color"]
    [("Part", "Color")] []
    (by decide) (by decide)
    "Part" []
    [("Color", .otherValue)] []
    [.serializesAsMismatch "Part" "Color" "Color3uint8" "Color"]
    [] [("Part", "Color")] []
    (by decide) (by decide) (by decide)
  refine ⟨h.1 (.serializesAs "Color3uint8") rfl, h.2.2.2.1 rfl (by decide), ?_, ?_⟩
  · have := h.2.2.2.2.1
    simpa using this
  · have := h.2.2.2.2.2
    simpa using this

end RbxDom.Defaults
